import Mathlib

/-!
Verification of the DragonBot chess-engine core (`engines/dragonbot.py`,
`engines/eval.py`, `engines/time_manager.py`) against its natural-language
specification.

The engine mutates a single `chess.Board` through `push`/`pop`.  Since the
initial position is never changed during a search, the board is fully
determined by its move stack, so we model a board as the list of moves
played on top of the (fixed, abstract) root position, most recent first:
`push` is `List.cons` and `pop` is `List.tail`.  All chess semantics the
engine obtains from the external `python-chess` library (legality, check,
captures, attack sets, hash keys) together with the wall clock and the
random generator are packaged as an oracle structure `Api`; the engine's
own arithmetic and control flow are transcribed from the source.

Python exceptions are modelled by an `Option` layer: a `none` result means
an uncaught exception propagating to the caller; on that path the move
stack is whatever the raising code left behind (a raise between `push` and
`pop` does not restore the board).
-/

namespace DB

/-- A chess move as the engine sees it: from-square, to-square (0..63) and
an optional promotion piece type (1..6, queen = 5). -/
structure Move where
  fromSq : Nat
  toSq : Nat
  promotion : Option Nat
deriving DecidableEq, Repr

/-- The null move `chess.Move.null()` (from = to = 0, no promotion). -/
def nullMove : Move := ⟨0, 0, none⟩

/-- A piece: type (pawn 1, knight 2, bishop 3, rook 4, queen 5, king 6)
and colour (`true` = white). -/
structure Piece where
  ptype : Nat
  color : Bool
deriving DecidableEq, Repr

/-- A board state is the stack of moves pushed onto the fixed root
position, most recent first.  `board.push(m)` is `m :: b`, `board.pop()`
is `b.tail`, `board.peek()` is `b.head?`, `len(board.move_stack)` is
`b.length`. -/
abbrev Board := List Move

/-- Transposition-table entry, as in class `TTEntry`. -/
structure TTEntry where
  depth : Int
  score : Int
  flag : Int
  best_move : Option Move
  age : Nat
deriving DecidableEq, Repr

/-- The chess semantics, clock and randomness the engine consumes from
outside its own code.  Fields named after the `python-chess` board methods
the source calls; `time_expired k` is the outcome of the k-th
`time.perf_counter() >= self.time_deadline` comparison, `rand_low k` the
outcome of the k-th `random.random() < 0.05` draw, `choose k` the index
drawn by the k-th `random.choice`.  `evaluate` is the static evaluator
`EvaluationMixin._evaluate` (a pure collaborator of the search),
`probe_csv` / `probe_book` / `probe_tb` the opening/tablebase lookups. -/
structure Api where
  is_checkmate : Board → Bool
  is_stalemate : Board → Bool
  is_insufficient_material : Board → Bool
  can_claim_threefold : Board → Bool
  can_claim_fifty : Board → Bool
  is_check : Board → Bool
  legal_moves : Board → List Move
  is_capture : Board → Move → Bool
  gives_check : Board → Move → Bool
  piece_at : Board → Nat → Option Piece
  is_attacked_by : Board → Bool → Nat → Bool
  turn : Board → Bool
  has_non_pawn_material : Board → Bool → Bool
  hash_key : Board → Nat
  pieces : Board → Nat → Bool → Nat
  piece_map_size : Board → Nat
  evaluate : Board → Int
  time_expired : Nat → Bool
  rand_low : Nat → Bool
  choose : Nat → Nat
  probe_csv : Board → Option Move
  probe_book : Board → Option Move
  probe_tb : Board → Option Move

/-- Mutable engine state (the `self.*` fields the search reads and
writes).  `clockc` and `randc` count clock polls and random draws so the
oracle streams in `Api` can be consumed deterministically. -/
structure St where
  nodes : Nat
  stop : Bool
  max_nodes : Option Nat
  clockc : Nat
  randc : Nat
  age : Nat
  tt_size : Nat
  tt : List (Nat × TTEntry)
  pv_table : List (Nat × Move)
  killer_moves : List (Nat × List Move)
  history : List ((Bool × Nat × Nat) × Int)
  counter_moves : List ((Nat × Nat) × Move)
deriving DecidableEq, Repr

def INF : Int := 10000000

def MATE_SCORE : Int := 1000000

/-- Dictionary lookup (Python `dict.get`).  Our dictionaries are
association lists in insertion order, with at most one entry per key. -/
def assocFind {κ α : Type} [DecidableEq κ] (k : κ) : List (κ × α) → Option α
  | [] => none
  | (k', v) :: rest => if k' = k then some v else assocFind k rest

/-- Dictionary write (Python `d[k] = v`): replace in place if the key is
present (Python dicts keep the original position), else append. -/
def assocSet {κ α : Type} [DecidableEq κ] (k : κ) (v : α) : List (κ × α) → List (κ × α)
  | [] => [(k, v)]
  | (k', v') :: rest => if k' = k then (k', v) :: rest else (k', v') :: assocSet k v rest

/-- Python list indexing `l[i]`: non-negative indices from the front,
negative indices from the back, `none` (an `IndexError`) out of range. -/
def pyGet (l : List Int) (i : Int) : Option Int :=
  if 0 ≤ i then l.get? i.toNat
  else
    let j : Int := (l.length : Int) + i
    if 0 ≤ j then l.get? j.toNat else none

/-- Python truthiness of an optional int (`None` and `0` are falsy). -/
def truthyOpt (o : Option Nat) : Bool :=
  match o with
  | none => false
  | some n => n ≠ 0

/-- `_piece_value`: the dictionary `{P:100, N:320, B:330, R:500, Q:900,
K:0}` (in Python a lookup with any other key would raise, but the library
only produces piece types 1..6). -/
def pieceValue (pt : Nat) : Int :=
  if pt = 1 then 100
  else if pt = 2 then 320
  else if pt = 3 then 330
  else if pt = 4 then 500
  else if pt = 5 then 900
  else 0

/-- `chess.square_rank`. -/
def square_rank (sq : Nat) : Nat := sq / 8

/-- `chess.square_file`. -/
def square_file (sq : Nat) : Nat := sq % 8

/-- `n` applications of `board.pop()`. -/
def popN : Nat → Board → Board
  | 0, b => b
  | n + 1, b => popN n b.tail

/-- Stable insertion keeping earlier elements first among equal keys;
together with `sortDesc` this models Python's stable
`list.sort(key=f, reverse=True)`. -/
def insertDesc {α : Type} (f : α → Int) (x : α) : List α → List α
  | [] => [x]
  | y :: ys => if f y > f x then y :: insertDesc f x ys else x :: y :: ys

/-- Stable descending sort by an integer key. -/
def sortDesc {α : Type} (f : α → Int) : List α → List α
  | [] => []
  | x :: xs => insertDesc f x (sortDesc f xs)

/-- `DragonBot._time_up`.  The node-mask deadline poll consumes one tick
of the clock oracle. -/
def time_up (api : Api) (st : St) : Bool × St :=
  if st.stop then (true, st)
  else if (match st.max_nodes with
           | some n => decide (0 < n ∧ n ≤ st.nodes)
           | none => false) then
    (true, { st with stop := true })
  else if st.nodes &&& 2047 = 0 then
    let st1 := { st with clockc := st.clockc + 1 }
    if api.time_expired st.clockc then (true, { st1 with stop := true })
    else (false, st1)
  else (false, st)

/-- `DragonBot._store_tt`: replace an existing entry when the new depth or
age is at least the old; at capacity, with probability ~5 % purge entries
whose age is `≤ age − 8` before inserting. -/
def store_tt (api : Api) (key : Nat) (e : TTEntry) (st : St) : St :=
  match assocFind key st.tt with
  | some existing =>
      if e.depth ≥ existing.depth ∨ e.age ≥ existing.age then
        { st with tt := assocSet key e st.tt }
      else st
  | none =>
      let st :=
        if st.tt.length ≥ st.tt_size then
          let st1 := { st with randc := st.randc + 1 }
          if api.rand_low st.randc then
            let old_age : Int := (st.age : Int) - 8
            { st1 with tt := st1.tt.filter (fun kv => (kv.2.age : Int) > old_age) }
          else st1
        else st
      { st with tt := assocSet key e st.tt }

/-- `DragonBot._see`: one-ply static exchange.  Non-captures score 0; a
capture whose destination holds no piece (en passant) or whose origin
holds none also returns 0 before any arithmetic.  The push/pop pair
around `is_attacked_by` is `m :: board` and dropping it again. -/
def see (api : Api) (board : Board) (m : Move) : Int :=
  if api.is_capture board m then
    match api.piece_at board m.toSq, api.piece_at board m.fromSq with
    | some captured, some attacker =>
        let gain := pieceValue captured.ptype
        let b2 : Board := m :: board
        let is_attacked := api.is_attacked_by b2 (!(api.turn b2)) m.toSq
        if is_attacked then gain - pieceValue attacker.ptype else gain
    | _, _ => 0
  else 0

/-- Twice the Manhattan distance of a square from the board centre: the
source computes `abs(file - 3.5) + abs(rank - 3.5)` in floats; every value
there is an exact multiple of 0.5, so doubling gives exact integers. -/
def centerDist2 (sq : Nat) : Int :=
  abs ((2 * (square_file sq : Int)) - 7) + abs ((2 * (square_rank sq : Int)) - 7)

/-- The inner `score` function of `DragonBot._ordered_moves`, transcribed
term by term.  The centralisation bonus `int((cd_from - cd_to) * 1000)` is
`(centerDist2 from - centerDist2 to) * 500`, exact because the float
quantities are multiples of 0.5 and small enough to be exact. -/
def order_score (api : Api) (board : Board) (tt_move : Option Move)
    (killers : List Move) (counter : Option Move)
    (hist : List ((Bool × Nat × Nat) × Int)) (m : Move) : Int :=
  if tt_move = some m then 10000000
  else
    let s : Int := 0
    let s :=
      if api.is_capture board m then
        match api.piece_at board m.toSq, api.piece_at board m.fromSq with
        | some victim, some attacker =>
            let mvv_lva := pieceValue victim.ptype * 100 - pieceValue attacker.ptype
            let s := s + mvv_lva + 100000
            let see_score := see api board m
            if see_score > 0 then s + see_score else s
        | _, _ => s
      else s
    let s :=
      if m.promotion = some 5 then s + 900000
      else if truthyOpt m.promotion then s + 300000
      else s
    let s := if api.gives_check board m then s + 50000 else s
    let s :=
      match api.piece_at board m.fromSq with
      | some piece =>
          let rank := square_rank m.toSq
          let s :=
            if piece.ptype = 1 ∧ piece.color = true ∧ rank ≥ 5 then
              s + ((rank : Int) - 4) * 10000
            else if piece.ptype = 1 ∧ piece.color = false ∧ rank ≤ 2 then
              s + (3 - (rank : Int)) * 10000
            else s
          let cdf := centerDist2 m.fromSq
          let cdt := centerDist2 m.toSq
          if cdt < cdf then s + (cdf - cdt) * 500 else s
      | none => s
    let s :=
      if killers.contains m then s + 80000
      else if counter = some m then s + 70000
      else s
    s + (assocFind (api.turn board, m.fromSq, m.toSq) hist).getD 0

/-- `DragonBot._ordered_moves`: legal moves sorted by descending
`order_score`, with the killer list for this ply, the counter move for the
previous move (`board.peek()`), and the history table read from state. -/
def ordered_moves (api : Api) (board : Board) (tt_move : Option Move)
    (ply : Nat) (st : St) : List Move :=
  let moves := api.legal_moves board
  let killers := (assocFind ply st.killer_moves).getD []
  let counter :=
    match board.head? with
    | some prev => assocFind (prev.fromSq, prev.toSq) st.counter_moves
    | none => none
  sortDesc (order_score api board tt_move killers counter st.history) moves

/-- The `mvv_lva` key of `DragonBot._ordered_captures`. -/
def capture_score (api : Api) (board : Board) (m : Move) : Int :=
  let score : Int :=
    if api.is_capture board m then
      match api.piece_at board m.toSq, api.piece_at board m.fromSq with
      | some victim, some attacker =>
          pieceValue victim.ptype * 10 - pieceValue attacker.ptype
      | _, _ => 0
    else 0
  if m.promotion = some 5 then score + 9000 else score

/-- `DragonBot._ordered_captures`: captures and queen promotions, sorted
by descending `capture_score`. -/
def ordered_captures (api : Api) (board : Board) : List Move :=
  let caps := (api.legal_moves board).filter
    (fun m => api.is_capture board m || m.promotion = some 5)
  sortDesc (capture_score api board) caps

/-- `DragonBot._update_history`: add `depth²` saturating at 10 000; when
the table exceeds 50 000 entries halve every value and drop those that
fall below 10. -/
def update_history (api : Api) (board : Board) (m : Move) (depth : Int) (st : St) : St :=
  let key := (api.turn board, m.fromSq, m.toSq)
  let bonus := depth * depth
  let h1 := assocSet key (min 10000 ((assocFind key st.history).getD 0 + bonus)) st.history
  let h2 :=
    if h1.length > 50000 then
      h1.filterMap (fun kv =>
        let v := kv.2 / 2
        if v < 10 then none else some (kv.1, v))
    else h1
  { st with history := h2 }

/-- `DragonBot._update_killers`: `setdefault(ply, [])`, push to slot 0 if
absent, keep at most 2. -/
def update_killers (ply : Nat) (m : Move) (st : St) : St :=
  let killers := (assocFind ply st.killer_moves).getD []
  if killers.contains m then
    { st with killer_moves := assocSet ply killers st.killer_moves }
  else
    let ks := m :: killers
    let ks := if ks.length > 2 then ks.dropLast else ks
    { st with killer_moves := assocSet ply ks st.killer_moves }

/-- The bookkeeping run at a beta cutoff in the `_pvs` move loop (source
lines 358–363): history is updated for the cutoff move unconditionally;
killers and the counter-move table only when the move is not a capture.
`board` here is the position after `board.pop()`, i.e. the node's own
position, so `board.peek()` is the move that led to this node. -/
def cutoffUpdates (api : Api) (board : Board) (m : Move) (depth : Int)
    (ply : Nat) (st : St) : St :=
  let st3 := update_history api board m depth st
  if api.is_capture board m then st3
  else
    let st4 := update_killers ply m st3
    match board.head? with
    | some prev =>
        { st4 with counter_moves := assocSet (prev.fromSq, prev.toSq) m st4.counter_moves }
    | none => st4

/-- Middlegame pawn table from `EvaluationMixin._init_pst`. -/
def PAWN_MG : List Int := [
  0, 0, 0, 0, 0, 0, 0, 0,
  50, 50, 50, 50, 50, 50, 50, 50,
  10, 10, 20, 30, 30, 20, 10, 10,
  5, 5, 10, 27, 27, 10, 5, 5,
  0, 0, 0, 25, 25, 0, 0, 0,
  5, -5, -10, 0, 0, -10, -5, 5,
  5, 10, 10, -25, -25, 10, 10, 5,
  0, 0, 0, 0, 0, 0, 0, 0]

/-- Middlegame knight table from `EvaluationMixin._init_pst`. -/
def KNIGHT_MG : List Int := [
  -50, -40, -30, -30, -30, -30, -40, -50,
  -40, -20, 0, 5, 5, 0, -20, -40,
  -30, 5, 10, 15, 15, 10, 5, -30,
  -30, 0, 15, 20, 20, 15, 0, -30,
  -30, 5, 15, 20, 20, 15, 5, -30,
  -30, 0, 10, 15, 15, 10, 0, -30,
  -40, -20, 0, 0, 0, 0, -20, -40,
  -50, -40, -30, -30, -30, -30, -40, -50]

/-- Middlegame bishop table from `EvaluationMixin._init_pst`, transcribed
verbatim: the source literal contains nine ranks (the closing
`-20, -10, …, -20` rank appears twice), i.e. 72 entries. -/
def BISHOP_MG : List Int := [
  -20, -10, -10, -10, -10, -10, -10, -20,
  -10, 5, 0, 0, 0, 0, 5, -10,
  -10, 10, 10, 10, 10, 10, 10, -10,
  -10, 0, 10, 10, 10, 10, 0, -10,
  -10, 5, 5, 10, 10, 5, 5, -10,
  -10, 0, 5, 10, 10, 5, 0, -10,
  -10, 0, 0, 0, 0, 0, 0, -10,
  -20, -10, -10, -10, -10, -10, -10, -20,
  -20, -10, -10, -10, -10, -10, -10, -20]

/-- Middlegame rook table from `EvaluationMixin._init_pst`. -/
def ROOK_MG : List Int := [
  0, 0, 0, 5, 5, 0, 0, 0,
  -5, 0, 0, 0, 0, 0, 0, -5,
  -5, 0, 0, 0, 0, 0, 0, -5,
  -5, 0, 0, 0, 0, 0, 0, -5,
  -5, 0, 0, 0, 0, 0, 0, -5,
  -5, 0, 0, 0, 0, 0, 0, -5,
  5, 10, 10, 10, 10, 10, 10, 5,
  0, 0, 0, 0, 0, 0, 0, 0]

/-- Middlegame queen table from `EvaluationMixin._init_pst`. -/
def QUEEN_MG : List Int := [
  -20, -10, -10, -5, -5, -10, -10, -20,
  -10, 0, 5, 0, 0, 0, 0, -10,
  -10, 5, 5, 5, 5, 5, 0, -10,
  0, 0, 5, 5, 5, 5, 0, -5,
  -5, 0, 5, 5, 5, 5, 0, -5,
  -10, 0, 5, 5, 5, 5, 0, -10,
  -10, 0, 0, 0, 0, 0, 0, -10,
  -20, -10, -10, -5, -5, -10, -10, -20]

/-- Middlegame king table from `EvaluationMixin._init_pst`. -/
def KING_MG : List Int := [
  -30, -40, -40, -50, -50, -40, -40, -30,
  -30, -40, -40, -50, -50, -40, -40, -30,
  -30, -40, -40, -50, -50, -40, -40, -30,
  -30, -40, -40, -50, -50, -40, -40, -30,
  -20, -30, -30, -40, -40, -30, -30, -20,
  -10, -20, -20, -20, -20, -20, -20, -10,
  20, 20, 0, 0, 0, 0, 20, 20,
  20, 30, 10, 0, 0, 10, 30, 20]

/-- Endgame pawn table from `EvaluationMixin._init_pst`. -/
def PAWN_EG : List Int := [
  0, 0, 0, 0, 0, 0, 0, 0,
  80, 80, 80, 80, 80, 80, 80, 80,
  50, 50, 50, 50, 50, 50, 50, 50,
  30, 30, 30, 30, 30, 30, 30, 30,
  20, 20, 20, 20, 20, 20, 20, 20,
  10, 10, 10, 10, 10, 10, 10, 10,
  10, 10, 10, 10, 10, 10, 10, 10,
  0, 0, 0, 0, 0, 0, 0, 0]

/-- Endgame knight table from `EvaluationMixin._init_pst`. -/
def KNIGHT_EG : List Int := [
  -50, -40, -30, -30, -30, -30, -40, -50,
  -40, -20, 0, 0, 0, 0, -20, -40,
  -30, 0, 10, 15, 15, 10, 0, -30,
  -30, 5, 15, 20, 20, 15, 5, -30,
  -30, 0, 15, 20, 20, 15, 0, -30,
  -30, 5, 10, 15, 15, 10, 5, -30,
  -40, -20, 0, 5, 5, 0, -20, -40,
  -50, -40, -30, -30, -30, -30, -40, -50]

/-- Endgame bishop table from `EvaluationMixin._init_pst`. -/
def BISHOP_EG : List Int := [
  -20, -10, -10, -10, -10, -10, -10, -20,
  -10, 0, 0, 0, 0, 0, 0, -10,
  -10, 0, 5, 10, 10, 5, 0, -10,
  -10, 5, 5, 10, 10, 5, 5, -10,
  -10, 0, 10, 10, 10, 10, 0, -10,
  -10, 10, 10, 10, 10, 10, 10, -10,
  -10, 5, 0, 0, 0, 0, 5, -10,
  -20, -10, -10, -10, -10, -10, -10, -20]

/-- Endgame rook table from `EvaluationMixin._init_pst`. -/
def ROOK_EG : List Int := [
  0, 0, 0, 0, 0, 0, 0, 0,
  5, 10, 10, 10, 10, 10, 10, 5,
  -5, 0, 0, 0, 0, 0, 0, -5,
  -5, 0, 0, 0, 0, 0, 0, -5,
  -5, 0, 0, 0, 0, 0, 0, -5,
  -5, 0, 0, 0, 0, 0, 0, -5,
  -5, 0, 0, 0, 0, 0, 0, -5,
  0, 0, 0, 5, 5, 0, 0, 0]

/-- Endgame queen table from `EvaluationMixin._init_pst`. -/
def QUEEN_EG : List Int := [
  -20, -10, -10, -5, -5, -10, -10, -20,
  -10, 0, 0, 0, 0, 0, 0, -10,
  -10, 0, 5, 5, 5, 5, 0, -10,
  -5, 0, 5, 5, 5, 5, 0, -5,
  0, 0, 5, 5, 5, 5, 0, -5,
  -10, 5, 5, 5, 5, 5, 0, -10,
  -10, 0, 5, 0, 0, 0, 0, -10,
  -20, -10, -10, -5, -5, -10, -10, -20]

/-- Endgame king table from `EvaluationMixin._init_pst`. -/
def KING_EG : List Int := [
  -50, -40, -30, -20, -20, -30, -40, -50,
  -30, -20, -10, 0, 0, -10, -20, -30,
  -30, -10, 20, 30, 30, 20, -10, -30,
  -30, -10, 30, 40, 40, 30, -10, -30,
  -30, -10, 30, 40, 40, 30, -10, -30,
  -30, -10, 20, 30, 30, 20, -10, -30,
  -30, -30, 0, 0, 0, 0, -30, -30,
  -50, -30, -30, -30, -30, -30, -30, -50]

/-- The `pst_mg` dictionary: middlegame table per piece type. -/
def pst_mg (pt : Nat) : List Int :=
  if pt = 1 then PAWN_MG
  else if pt = 2 then KNIGHT_MG
  else if pt = 3 then BISHOP_MG
  else if pt = 4 then ROOK_MG
  else if pt = 5 then QUEEN_MG
  else KING_MG

/-- The `pst_eg` dictionary: endgame table per piece type. -/
def pst_eg (pt : Nat) : List Int :=
  if pt = 1 then PAWN_EG
  else if pt = 2 then KNIGHT_EG
  else if pt = 3 then BISHOP_EG
  else if pt = 4 then ROOK_EG
  else if pt = 5 then QUEEN_EG
  else KING_EG

/-- The transposition-table probe of `_quiescence` (stored depth ≥ 0,
then EXACT / LOWER-below-alpha / UPPER-above-beta cutoffs). -/
def qcut (entry : Option TTEntry) (alpha beta : Int) : Option Int :=
  match entry with
  | some e =>
      if e.depth ≥ 0 then
        if e.flag = 0 then some e.score
        else if e.flag < 0 ∧ e.score ≤ alpha then some alpha
        else if e.flag > 0 ∧ e.score ≥ beta then some beta
        else none
      else none
  | none => none

/-- The capture loop of `_quiescence`.  `rec` is the recursive quiescence
call; the first component is `some v` when the loop returned early on a
beta cutoff (after storing a LOWER entry), `none` when it ran to the end
or broke on the deadline, with the final alpha alongside. -/
def qLoop (rec : Int → Int → Nat → Board → St → Int × Board × St)
    (api : Api) (beta : Int) (ply : Nat) (key : Nat) :
    List Move → Int → Board → St → Option Int × Int × Board × St
  | [], alpha, board, st => (none, alpha, board, st)
  | m :: ms, alpha, board, st =>
    if !(api.gives_check board m) && see api board m < 0 then
      qLoop rec api beta ply key ms alpha board st
    else
      let b1 : Board := m :: board
      let (s, b2, st1) := rec (-beta) (-alpha) (ply + 1) b1 st
      let score := -s
      let board1 := b2.tail
      if score ≥ beta then
        let st2 := store_tt api key ⟨0, beta, 1, some m, st1.age⟩ st1
        (some beta, alpha, board1, st2)
      else
        let alpha := if score > alpha then score else alpha
        let (tu, st2) := time_up api st1
        if tu then (none, alpha, board1, st2)
        else qLoop rec api beta ply key ms alpha board1 st2

/-- The tail of `_quiescence` after the stand-pat block: run the capture
loop from the (possibly raised) alpha, then store EXACT if alpha rose,
else UPPER. -/
def qTail (rec : Int → Int → Nat → Board → St → Int × Board × St)
    (api : Api) (alpha beta : Int) (ply : Nat) (key : Nat)
    (board : Board) (st : St) : Int × Board × St :=
  let orig_alpha := alpha
  let (r, alpha1, board1, st1) :=
    qLoop rec api beta ply key (ordered_captures api board) alpha board st
  match r with
  | some v => (v, board1, st1)
  | none =>
      let flag : Int := if alpha1 > orig_alpha then 0 else -1
      let st2 := store_tt api key ⟨0, alpha1, flag, none, st1.age⟩ st1
      (alpha1, board1, st2)

/-- `DragonBot._quiescence`.  `fuel` bounds the recursion depth (any run
of the Python code explores only finitely many plies); at fuel 0 we return
the deadline value 0. -/
def quiescence (api : Api) (fuel : Nat) : Int → Int → Nat → Board → St → Int × Board × St :=
  match fuel with
  | 0 => fun _ _ _ board st => (0, board, st)
  | fuel + 1 => fun alpha beta ply board st =>
    let (tu, st) := time_up api st
    if tu then (0, board, st)
    else
      let st := { st with nodes := st.nodes + 1 }
      let key := api.hash_key board
      match qcut (assocFind key st.tt) alpha beta with
      | some r => (r, board, st)
      | none =>
          let stand_pat := api.evaluate board
          if stand_pat ≥ beta then (beta, board, st)
          else if stand_pat < alpha - 975 then (alpha, board, st)
          else
            let alpha := if alpha < stand_pat then stand_pat else alpha
            qTail (fun a b p bd s => quiescence api fuel a b p bd s)
              api alpha beta ply key board st

/-- The result of a `_pvs` call: `some (score, best_move)` plus the board
and state left behind, or `none` for a propagating exception (with the
unrestored board alongside). -/
abbrev PRes := Option (Int × Option Move) × Board × St

/-- The type of the recursive `_pvs` call as seen from inside the move
loop: depth, alpha, beta, ply, is_pv (the recursive call sites never pass
`allowed_root`). -/
abbrev RecPvs := Int → Int → Int → Nat → Bool → Board → St → PRes

/-- A recursive call pattern `score, _ = self._pvs(...)`, `score = -score`:
the move component is dropped and the score negated; exceptions
propagate. -/
def callNeg (rec : RecPvs) (d a b : Int) (ply : Nat) (pv : Bool)
    (board : Board) (st : St) : Option Int × Board × St :=
  match rec d a b ply pv board st with
  | (some (s, _), b', st') => (some (-s), b', st')
  | (none, b', st') => (none, b', st')

/-- The search of a non-first move in the `_pvs` loop (source lines
334–346): a reduced zero-window scout only when a reduction applies
(otherwise the score starts at `alpha + 1` with no search), a zero-window
re-scout at full depth when the scout beat alpha and a reduction applied,
and a full-window search, passing the node's own `is_pv` flag, when the
score sits strictly between alpha and beta.  `ply` is the parent ply. -/
def laterMoveSearch (rec : RecPvs) (depth alpha beta : Int) (ply : Nat)
    (is_pv do_reduction : Bool) (reduction : Int)
    (board : Board) (st : St) : Option Int × Board × St :=
  match (if do_reduction then
           callNeg rec (depth - 1 - reduction) (-alpha - 1) (-alpha) (ply + 1) false board st
         else (some (alpha + 1), board, st)) with
  | (none, b, s) => (none, b, s)
  | (some score, b, s) =>
    match (if score > alpha ∧ do_reduction then
             callNeg rec (depth - 1) (-alpha - 1) (-alpha) (ply + 1) false b s
           else (some score, b, s)) with
    | (none, b2, s2) => (none, b2, s2)
    | (some score, b2, s2) =>
      if score > alpha ∧ score < beta then
        callNeg rec (depth - 1) (-beta) (-alpha) (ply + 1) is_pv b2 s2
      else (some score, b2, s2)

/-- The late-move-reduction decision (source lines 318–328), computed with
the move already pushed: the source consults `board.is_check()` and
`board.is_capture(move)` on the child position `b1`. -/
def decideReduction (api : Api) (is_pv is_check : Bool) (moves_searched : Nat)
    (depth : Int) (b1 : Board) (m : Move) : Bool × Int :=
  if is_pv = false ∧ moves_searched ≥ 4 ∧ depth ≥ 3 ∧ is_check = false ∧
     api.is_check b1 = false ∧ api.is_capture b1 m = false ∧ m.promotion = none then
    let r : Int := if moves_searched ≥ 8 then 2 else 1
    let r := if depth > 6 then r + 1 else r
    (true, r)
  else (false, 0)

/-- The post-search bookkeeping of one `_pvs` loop iteration (source lines
351–364): returns the new alpha, best score, best move, state, and whether
the loop breaks on a beta cutoff.  `board` is the position after
`board.pop()`. -/
def loopUpdate (api : Api) (key : Nat) (depth beta : Int) (ply : Nat) (m : Move)
    (score alpha best_score : Int) (best_move : Option Move)
    (board : Board) (st : St) : Int × Int × Option Move × St × Bool :=
  if score > best_score then
    if score > alpha then
      let st2 := { st with pv_table := assocSet key m st.pv_table }
      if score ≥ beta then
        (score, score, some m, cutoffUpdates api board m depth ply st2, true)
      else (score, score, some m, st2, false)
    else (alpha, score, some m, st, false)
  else (alpha, best_score, best_move, st, false)

/-- The move loop of `_pvs` (source lines 315–367).  Each iteration pushes
the move, runs the first-move or later-move search, pops, applies
`loopUpdate`, and breaks on a cutoff or on the deadline.  An exception in
a child aborts the loop with the board left pushed. -/
def pvsLoop (rec : RecPvs) (api : Api) (key : Nat) (depth beta : Int)
    (ply : Nat) (is_pv is_check : Bool) :
    List Move → Int → Int → Option Move → Nat → Board → St → PRes
  | [], _, best_score, best_move, _, board, st => (some (best_score, best_move), board, st)
  | m :: ms, alpha, best_score, best_move, moves_searched, board, st =>
    let b1 : Board := m :: board
    let (do_reduction, reduction) := decideReduction api is_pv is_check moves_searched depth b1 m
    let (scoreO, b2, st1) :=
      if moves_searched = 0 then
        callNeg rec (depth - 1) (-beta) (-alpha) (ply + 1) is_pv b1 st
      else
        laterMoveSearch rec depth alpha beta ply is_pv do_reduction reduction b1 st
    match scoreO with
    | none => (none, b2, st1)
    | some score =>
      let board2 := b2.tail
      let (alpha2, bs2, bm2, st2, broke) :=
        loopUpdate api key depth beta ply m score alpha best_score best_move board2 st1
      if broke then (some (bs2, bm2), board2, st2)
      else
        let (tu, st3) := time_up api st2
        if tu then (some (bs2, bm2), board2, st3)
        else pvsLoop rec api key depth beta ply is_pv is_check ms alpha2 bs2 bm2
               (moves_searched + 1) board2 st3

/-- The futility margin table `[0, 200, 350, 500]` of `_pvs`. -/
def futilityMargins : List Int := [0, 200, 350, 500]

/-- The tail of `_pvs` after the futility stage (source lines 300–378):
generate ordered moves, filter by `allowed_root` at ply 0, return `(0,
None)` on an empty list, apply the check extension, run the move loop and
store the node in the transposition table. -/
def pvsTail (rec : RecPvs) (api : Api) (depth alpha beta : Int) (ply : Nat)
    (is_pv : Bool) (allowed_root : Option (List Move)) (is_check : Bool)
    (key : Nat) (tt_move : Option Move) (board : Board) (st : St) : PRes :=
  let moves := ordered_moves api board tt_move ply st
  let moves :=
    match allowed_root with
    | some ar => if ply = 0 then moves.filter (fun m => ar.contains m) else moves
    | none => moves
  if moves.isEmpty then (some (0, none), board, st)
  else
    let depth := if is_check then depth + 1 else depth
    match pvsLoop rec api key depth beta ply is_pv is_check moves alpha (-INF) none 0 board st with
    | (none, b2, st2) => (none, b2, st2)
    | (some (best_score, best_move), b2, st2) =>
      let flag : Int := if best_score ≤ alpha then -1 else if best_score ≥ beta then 1 else 0
      let st3 := store_tt api key ⟨depth, best_score, flag, best_move, st2.age⟩ st2
      (some (best_score, best_move), b2, st3)

/-- Internal iterative deepening and futility pruning of `_pvs` (source
lines 289–298), followed by `pvsTail`.  The futility-margin lookup is
Python list indexing and can in principle raise an `IndexError`
(propagated as `none`); the callers only reach it with `1 ≤ depth ≤ 3`. -/
def pvsMain (rec : RecPvs) (api : Api) (depth alpha beta : Int) (ply : Nat)
    (is_pv : Bool) (allowed_root : Option (List Move)) (is_check : Bool)
    (key : Nat) (tt_move0 : Option Move) (board : Board) (st : St) : PRes :=
  match (if is_pv = true ∧ tt_move0 = none ∧ depth ≥ 4 then
           match rec (depth - 2) alpha beta ply true board st with
           | (none, b2, st2) => (none, tt_move0, b2, st2)
           | (some (_, iid_move), b2, st2) =>
             (some 0, (match iid_move with | some mv => some mv | none => tt_move0), b2, st2)
         else (some 0, tt_move0, board, st) :
         Option Int × Option Move × Board × St) with
  | (none, _, b2, st2) => (none, b2, st2)
  | (some _, tt_move, b2, st2) =>
    if depth ≤ 3 ∧ is_pv = false ∧ is_check = false ∧ abs alpha < MATE_SCORE - 100 then
      match pyGet futilityMargins depth with
      | none => (none, b2, st2)
      | some futility_margin =>
        let static_eval := api.evaluate b2
        if static_eval + futility_margin ≤ alpha then (some (alpha, none), b2, st2)
        else pvsTail rec api depth alpha beta ply is_pv allowed_root is_check key tt_move b2 st2
    else pvsTail rec api depth alpha beta ply is_pv allowed_root is_check key tt_move b2 st2

/-- The transposition-table cutoff of `_pvs` (entry deep enough and not a
PV node). -/
def ttCut (entry : Option TTEntry) (depth alpha beta : Int) (is_pv : Bool) :
    Option (Int × Option Move) :=
  match entry with
  | some e =>
      if e.depth ≥ depth ∧ is_pv = false then
        if e.flag = 0 then some (e.score, e.best_move)
        else if e.flag < 0 ∧ e.score ≤ alpha then some (alpha, e.best_move)
        else if e.flag > 0 ∧ e.score ≥ beta then some (beta, e.best_move)
        else none
      else none
  | none => none

/-- `DragonBot._pvs`, transcribed stage by stage: deadline poll, node
count, terminal tests, mate-distance pruning, transposition probe,
quiescence handoff, null-move pruning, then `pvsMain` (IID, futility,
move loop, store).  `fuel` bounds the recursion depth; at fuel 0 the
deadline value `(0, None)` is returned. -/
def pvs (api : Api) (fuel : Nat) : Int → Int → Int → Nat → Bool →
    Option (List Move) → Board → St → PRes :=
  match fuel with
  | 0 => fun _ _ _ _ _ _ board st => (some (0, none), board, st)
  | fuel + 1 => fun depth alpha beta ply is_pv allowed_root board st =>
    let (tu, st) := time_up api st
    if tu then (some (0, none), board, st)
    else
      let st := { st with nodes := st.nodes + 1 }
      if api.is_checkmate board then (some (-MATE_SCORE + ply, none), board, st)
      else if api.is_stalemate board || api.is_insufficient_material board then
        (some (0, none), board, st)
      else if api.can_claim_threefold board || api.can_claim_fifty board then
        (some (0, none), board, st)
      else
        let alpha := max alpha (-MATE_SCORE + ply)
        let beta := min beta (MATE_SCORE - ply - 1)
        if alpha ≥ beta then (some (alpha, none), board, st)
        else
          let key := api.hash_key board
          let entry := assocFind key st.tt
          let tt_move := match entry with | some e => e.best_move | none => none
          match ttCut entry depth alpha beta is_pv with
          | some r => (some r, board, st)
          | none =>
            if depth ≤ 0 then
              let (q, b', st') := quiescence api fuel alpha beta ply board st
              (some (q, none), b', st')
            else
              let is_check := api.is_check board
              let rec0 : RecPvs := fun d a b p pv bd s => pvs api fuel d a b p pv none bd s
              if is_pv = false ∧ is_check = false ∧ depth ≥ 3 ∧
                 api.has_non_pawn_material board (api.turn board) = true then
                let R : Int := if depth > 6 then 3 else 2
                match pvs api fuel (depth - 1 - R) (-beta) (-beta + 1) (ply + 1) false none
                    (nullMove :: board) st with
                | (none, b', st') => (none, b', st')
                | (some (ns, _), b', st') =>
                  let null_score := -ns
                  let b2 := b'.tail
                  if null_score ≥ beta then (some (beta, none), b2, st')
                  else pvsMain rec0 api depth alpha beta ply is_pv allowed_root is_check
                         key tt_move b2 st'
              else pvsMain rec0 api depth alpha beta ply is_pv allowed_root is_check
                     key tt_move board st

/-- A `chess.engine.Limit` as the time manager reads it.  The object
always has the attributes; unset ones are `None`.  Times are modelled in
ℚ (the Python floats are IEEE doubles; no claim here depends on rounding).
The `increment` the movetime branch reads via `getattr(…, 'increment',
0.0) or getattr(…, 'inc', 0.0) or 0.0` is always 0 because
`chess.engine.Limit` has neither attribute. -/
structure Limit where
  white_clock : Option ℚ
  black_clock : Option ℚ
  white_inc : Option ℚ
  black_inc : Option ℚ
  time : Option ℚ
deriving DecidableEq, Repr

/-- Game phase as the string returned by `TimeManager.calculate_game_phase`. -/
inductive GamePhase where
  | opening
  | middlegame
  | endgame
deriving DecidableEq, Repr

/-- `TimeManager.evaluate_position_complexity`. -/
def evaluate_position_complexity (api : Api) (board : Board) : ℚ :=
  let legal := api.legal_moves board
  let c : ℚ := (legal.length : ℚ) * (1 / 2)
  let c := c + ((legal.filter (fun m => api.is_capture board m)).length : ℚ) * (3 / 2)
  let c := c + (if api.is_check board then 8 else 0)
  let c := c + ((legal.filter (fun m => api.gives_check board m)).length : ℚ)
  let c := c + ((legal.filter (fun m => truthyOpt m.promotion)).length : ℚ) * 2
  let central : Nat :=
    ([28, 27, 36, 35] : List Nat).foldl
      (fun acc sq =>
        let acc := if api.is_attacked_by board true sq then acc + 1 else acc
        if api.is_attacked_by board false sq then acc + 1 else acc) 0
  let c := c + (central : ℚ) * (3 / 10)
  let queens := api.pieces board 5 true + api.pieces board 5 false
  let rooks := api.pieces board 4 true + api.pieces board 4 false
  let c := c + ((queens : ℚ) * 2 + (rooks : ℚ))
  let pawns := api.pieces board 1 true + api.pieces board 1 false
  if pawns < 8 then c + ((8 - pawns : Nat) : ℚ) * (1 / 2) else c

/-- `TimeManager.calculate_game_phase`. -/
def calculate_game_phase (api : Api) (board : Board) : GamePhase :=
  let piece_count := api.piece_map_size board
  let move_count := board.length
  let queens := api.pieces board 5 true + api.pieces board 5 false
  let rooks := api.pieces board 4 true + api.pieces board 4 false
  if move_count < 20 then .opening
  else if piece_count ≤ 12 ∨ (queens = 0 ∧ rooks ≤ 2) then .endgame
  else .middlegame

/-- The body of `TimeManager.calculate_time_allocation` once a remaining
time and increment have been extracted (source lines 84–134).  `none`
models the `ZeroDivisionError` raised when `remaining_time +
increment * expected_remaining_moves` is zero. -/
def tm_alloc (api : Api) (board : Board) (remaining_time increment : ℚ)
    (max_depth : Nat) : Option (ℚ × Nat) :=
  let game_phase := calculate_game_phase api board
  let (time_factor, base_depth) :=
    match game_phase with
    | .opening => (((5 : ℚ) / 100, (7 : Nat)))
    | .middlegame => (((1 : ℚ) / 10, (9 : Nat)))
    | .endgame => (((12 : ℚ) / 100, (6 : Nat)))
  let complexity := evaluate_position_complexity api board
  let complexity_normalized := min (complexity / 30) 2
  let adjusted_time_factor := time_factor * (1 + complexity_normalized * 1)
  let move_count := board.length
  let expected_remaining_moves : ℚ := max 20 (60 - (move_count : ℚ))
  let denom := remaining_time + increment * expected_remaining_moves
  if denom = 0 then none
  else
    let time_ratio := remaining_time / denom
    let allocated_time :=
      (remaining_time / expected_remaining_moves) * (1 + adjusted_time_factor) * time_ratio
    let allocated_time := allocated_time + increment * (8 / 10)
    let cap_percentage : ℚ :=
      if remaining_time > 300 then 4 / 10
      else if remaining_time > 120 then 35 / 100
      else if remaining_time > 30 then 3 / 10
      else 25 / 100
    let allocated_time := min allocated_time (remaining_time * cap_percentage)
    let allocated_time := max allocated_time (5 / 100)
    let depth_from_time :=
      if allocated_time > 10 then base_depth + 8
      else if allocated_time > 5 then base_depth + 6
      else if allocated_time > 2 then base_depth + 5
      else if allocated_time > 1 then base_depth + 4
      else if allocated_time > 1 / 2 then base_depth + 3
      else base_depth
    let complexity_depth_bonus := (complexity_normalized * 3).floor.toNat
    let target_depth := min (depth_from_time + complexity_depth_bonus) max_depth
    some (allocated_time, target_depth)

/-- `TimeManager.calculate_time_allocation`.  A missing limit object and a
limit with neither clock nor movetime both return `(1.0, 10)`; a clock
limit reads the side-to-move's clock (`float(None)` — a black-clock limit
missing the black clock — raises, modelled as `none`). -/
def calculate_time_allocation (api : Api) (board : Board)
    (time_limit : Option Limit) (max_depth : Nat) : Option (ℚ × Nat) :=
  match time_limit with
  | none => some (1, 10)
  | some tl =>
    match tl.white_clock with
    | some wc =>
        if api.turn board then tm_alloc api board wc (tl.white_inc.getD 0) max_depth
        else
          match tl.black_clock with
          | some bc => tm_alloc api board bc (tl.black_inc.getD 0) max_depth
          | none => none
    | none =>
      match tl.time with
      | some t => tm_alloc api board t 0 max_depth
      | none => some (1, 10)

/-- Modelled from the spec: the external collaborators probed before the
search — CSV-opening match, then Polyglot book entry, then Syzygy probe;
the first that returns a move short-circuits the search.  The lookups
themselves (`OpeningsMixin`, absent from the sources) are oracle fields of
`Api`; their internal gating options are folded into the oracles. -/
def opening_probe (api : Api) (board : Board) : Option Move :=
  match api.probe_csv board with
  | some m => some m
  | none =>
    match api.probe_book board with
    | some m => some m
    | none => api.probe_tb board

/-- The walk of `DragonBot._extract_pv`: follow `pv_table` for at most 20
steps, stopping on a repeated key, a missing key or an illegal stored
move, pushing each move. -/
def extract_pv_loop (api : Api) (st : St) :
    Nat → List Nat → List Move → Board → List Move × Board
  | 0, _, pv, board => (pv, board)
  | n + 1, seen, pv, board =>
    let key := api.hash_key board
    if seen.contains key then (pv, board)
    else
      match assocFind key st.pv_table with
      | none => (pv, board)
      | some mv =>
        if (api.legal_moves board).contains mv then
          extract_pv_loop api st n (key :: seen) (pv ++ [mv]) (mv :: board)
        else (pv, board)

/-- `DragonBot._extract_pv`: walk the PV table, then pop once per
collected move. -/
def extract_pv (api : Api) (st : St) (board : Board) : List Move × Board :=
  let (pv, b) := extract_pv_loop api st 20 [] [] board
  (pv, popN pv.length b)

/-- The iterative-deepening loop of `DragonBot.search` (source lines
188–219): per depth, clear the PV table, search an aspiration window
around the best score, re-search with the full window on a failure, adopt
the move if one came back, and stop on the deadline, the node cap or a
mate score.  Carries (best_move, best_score, pv, last_depth). -/
def idLoop (api : Api) (allowed : Option (List Move)) (fuel : Nat) :
    List Nat → Option Move → Int → List Move → Nat → Board → St →
    Option (Option Move × Int × List Move × Nat) × Board × St
  | [], bm, bs, pv, ld, board, st => (some (bm, bs, pv, ld), board, st)
  | d :: ds, bm, bs, pv, ld, board, st =>
    let (tu, st) := time_up api st
    if tu then (some (bm, bs, pv, ld), board, st)
    else
      let st := { st with pv_table := [] }
      let alpha := max (-INF) (bs - 50)
      let beta := min INF (bs + 50)
      match pvs api fuel (d : Int) alpha beta 0 true allowed board st with
      | (none, b', st') => (none, b', st')
      | (some (score, move), board, st) =>
        match (if score ≤ alpha ∨ score ≥ beta then
                 pvs api fuel (d : Int) (-INF) INF 0 true allowed board st
               else (some (score, move), board, st)) with
        | (none, b', st') => (none, b', st')
        | (some (score, move), board, st) =>
          let ld := d
          let (bm, bs, pv, board) :=
            match move with
            | some mv =>
              let (pvl, b2) := extract_pv api st board
              (some mv, score, pvl, b2)
            | none => (bm, bs, pv, board)
          let (tu, st) := time_up api st
          if tu then (some (bm, bs, pv, ld), board, st)
          else if (match st.max_nodes with
                   | some n => decide (0 < n ∧ n ≤ st.nodes)
                   | none => false) then (some (bm, bs, pv, ld), board, st)
          else if abs bs > MATE_SCORE - 100 then (some (bm, bs, pv, ld), board, st)
          else idLoop api allowed fuel ds bm bs pv ld board st

/-- The observable outcome of a `search` call: the move played, the depth
reached, the principal variation and the reported centipawn score (absent
on the opening/tablebase short-circuit paths, which report no score). -/
structure PlayOut where
  move : Option Move
  depth : Nat
  pv : List Move
  score : Option Int
deriving DecidableEq, Repr

/-- `DragonBot.search` (source lines 120–240): opening probes, state
reset, time allocation, the depth-1 seed search with the full window, the
iterative-deepening loop, and the random fallback when no move was
established.  A `none` first component is an uncaught exception. -/
def search (api : Api) (max_depth : Nat) (fuel : Nat) (time_limit : Option Limit)
    (root_moves : Option (List Move)) (board : Board) (st : St) :
    Option PlayOut × Board × St :=
  match opening_probe api board with
  | some m => (some ⟨some m, 0, [m], none⟩, board, st)
  | none =>
    let st := { st with nodes := 0, stop := false }
    match calculate_time_allocation api board time_limit max_depth with
    | none => (none, board, st)
    | some (_allocated_time, adaptive_max_depth) =>
      let st := { st with age := st.age + 1 }
      let st :=
        if st.age % 4 = 0 then
          { st with killer_moves := st.killer_moves.filter (fun kv => kv.1 < 50) }
        else st
      let st := { st with pv_table := [] }
      match pvs api fuel 1 (-INF) INF 0 true root_moves board st with
      | (none, b', st') => (none, b', st')
      | (some (score, move), board, st) =>
        let (best_move, best_score, pv, board) :=
          match move with
          | some mv =>
            let (pvl, b2) := extract_pv api st board
            (some mv, score, pvl, b2)
          | none => (none, 0, ([] : List Move), board)
        match idLoop api root_moves fuel (List.range' 2 (adaptive_max_depth - 1))
            best_move best_score pv 1 board st with
        | (none, b', st') => (none, b', st')
        | (some (bm, bs, pvL, ld), board, st) =>
          let legal := api.legal_moves board
          let bm2 : Option Move :=
            match bm with
            | some m => some m
            | none =>
              let ms :=
                match root_moves with
                | none => legal
                | some ar => legal.filter (fun m => ar.contains m)
              if ms.isEmpty then none else ms.get? (api.choose st.randc % ms.length)
          (some ⟨bm2, ld, pvL, some bs⟩, board, st)

/-- The later-move search exactly as claim C2 words it: every later move
is first scouted at `depth − 1 − R` with the zero window; only if `R > 0`
and the result exceeds alpha is it re-scouted at full `depth − 1`; only if
the result lies strictly between alpha and beta is it re-searched with the
full window and `is_pv = true`. -/
def later_move_per_claim (rec : RecPvs) (depth alpha beta : Int) (ply : Nat)
    (R : Int) (board : Board) (st : St) : Option Int × Board × St :=
  match callNeg rec (depth - 1 - R) (-alpha - 1) (-alpha) (ply + 1) false board st with
  | (none, b, s) => (none, b, s)
  | (some score, b, s) =>
    match (if R > 0 ∧ score > alpha then
             callNeg rec (depth - 1) (-alpha - 1) (-alpha) (ply + 1) false b s
           else (some score, b, s)) with
    | (none, b2, s2) => (none, b2, s2)
    | (some score, b2, s2) =>
      if score > alpha ∧ score < beta then
        callNeg rec (depth - 1) (-beta) (-alpha) (ply + 1) true b2 s2
      else (some score, b2, s2)

/-- The later-move search as the code actually behaves, phrased by the
reduction amount: with `R > 0`, scout reduced with the zero window,
re-scout at full depth on beating alpha, then a full-window re-search
passing the node's own `is_pv` flag when strictly inside the window; with
`R = 0` there is no scout at all — the score starts at `alpha + 1` and a
single full-window search (again with the node's `is_pv`) runs exactly
when `alpha + 1 < beta`. -/
def later_move_amended (rec : RecPvs) (depth alpha beta : Int) (ply : Nat)
    (is_pv : Bool) (R : Int) (board : Board) (st : St) : Option Int × Board × St :=
  if 0 < R then
    match callNeg rec (depth - 1 - R) (-alpha - 1) (-alpha) (ply + 1) false board st with
    | (none, b, s) => (none, b, s)
    | (some score, b, s) =>
      match (if score > alpha then
               callNeg rec (depth - 1) (-alpha - 1) (-alpha) (ply + 1) false b s
             else (some score, b, s)) with
      | (none, b2, s2) => (none, b2, s2)
      | (some score, b2, s2) =>
        if score > alpha ∧ score < beta then
          callNeg rec (depth - 1) (-beta) (-alpha) (ply + 1) is_pv b2 s2
        else (some score, b2, s2)
  else
    if alpha + 1 < beta then
      callNeg rec (depth - 1) (-beta) (-alpha) (ply + 1) is_pv board st
    else (some (alpha + 1), board, st)

/-- The move-ordering sum exactly as claim C4 words it (without the TT
case): MVV-LVA capture bonus plus positive SEE, promotion bonus, check
bonus, killer-else-counter bonus, history — and nothing else. -/
def order_score_claim_sum (api : Api) (board : Board) (killers : List Move)
    (counter : Option Move) (hist : List ((Bool × Nat × Nat) × Int)) (m : Move) : Int :=
  (if api.is_capture board m then
     match api.piece_at board m.toSq, api.piece_at board m.fromSq with
     | some victim, some attacker =>
         100000 + pieceValue victim.ptype * 100 - pieceValue attacker.ptype +
           (if see api board m > 0 then see api board m else 0)
     | _, _ => 0
   else 0)
  + (if m.promotion = some 5 then 900000 else if truthyOpt m.promotion then 300000 else 0)
  + (if api.gives_check board m then 50000 else 0)
  + (if killers.contains m then 80000 else if counter = some m then 70000 else 0)
  + (assocFind (api.turn board, m.fromSq, m.toSq) hist).getD 0

/-- The full ordering score exactly as claim C4 words it: the exclusive
TT-move score, otherwise `order_score_claim_sum`. -/
def order_score_per_claim (api : Api) (board : Board) (tt_move : Option Move)
    (killers : List Move) (counter : Option Move)
    (hist : List ((Bool × Nat × Nat) × Int)) (m : Move) : Int :=
  if tt_move = some m then 10000000
  else order_score_claim_sum api board killers counter hist m

/-- The two ordering bonuses the source adds beyond the claimed terms:
the pawn-advance bonus for pawns reaching the last three ranks and the
centralisation bonus for moves that reduce the distance to the centre. -/
def order_score_extras (api : Api) (board : Board) (m : Move) : Int :=
  match api.piece_at board m.fromSq with
  | some piece =>
      let rank := square_rank m.toSq
      (if piece.ptype = 1 ∧ piece.color = true ∧ rank ≥ 5 then ((rank : Int) - 4) * 10000
       else if piece.ptype = 1 ∧ piece.color = false ∧ rank ≤ 2 then (3 - (rank : Int)) * 10000
       else 0)
      + (if centerDist2 m.toSq < centerDist2 m.fromSq then
           (centerDist2 m.fromSq - centerDist2 m.toSq) * 500
         else 0)
  | none => 0

/-- The capture stage of `order_score`, abstracted over the values the
source fetches from the board, applied to the running score `s`. -/
def stage_capture (capture : Bool) (victim attacker : Option Piece)
    (see_score : Int) (s : Int) : Int :=
  if capture then
    match victim, attacker with
    | some victim, some attacker =>
        let mvv_lva := pieceValue victim.ptype * 100 - pieceValue attacker.ptype
        let s := s + mvv_lva + 100000
        if see_score > 0 then s + see_score else s
    | _, _ => s
  else s

/-- The promotion stage of `order_score`. -/
def stage_promo (m : Move) (s : Int) : Int :=
  if m.promotion = some 5 then s + 900000
  else if truthyOpt m.promotion then s + 300000
  else s

/-- The check stage of `order_score`. -/
def stage_check (chk : Bool) (s : Int) : Int :=
  if chk then s + 50000 else s

/-- The pawn-advance and centralisation stage of `order_score`. -/
def stage_piece (m : Move) (piece : Option Piece) (s : Int) : Int :=
  match piece with
  | some piece =>
      let rank := square_rank m.toSq
      let s :=
        if piece.ptype = 1 ∧ piece.color = true ∧ rank ≥ 5 then
          s + ((rank : Int) - 4) * 10000
        else if piece.ptype = 1 ∧ piece.color = false ∧ rank ≤ 2 then
          s + (3 - (rank : Int)) * 10000
        else s
      let cdf := centerDist2 m.fromSq
      let cdt := centerDist2 m.toSq
      if cdt < cdf then s + (cdf - cdt) * 500 else s
  | none => s

/-- The killer / counter-move stage of `order_score`. -/
def stage_killer (m : Move) (killers : List Move) (counter : Option Move) (s : Int) : Int :=
  if killers.contains m then s + 80000
  else if counter = some m then s + 70000
  else s

/-- The body of `order_score` past the TT case, as the composition of its
stages: `capture = board.is_capture(m)`, `victim / attacker / piece =
board.piece_at(..)`, `see_score = _see(m)`, `chk = board.gives_check(m)`,
`histv` the history entry.  `order_score` is definitionally this core
applied to those fetches. -/
def order_score_core (m : Move) (capture : Bool) (victim attacker : Option Piece)
    (see_score : Int) (chk : Bool) (piece : Option Piece)
    (killers : List Move) (counter : Option Move) (histv : Int) : Int :=
  stage_killer m killers counter
    (stage_piece m piece
      (stage_check chk
        (stage_promo m
          (stage_capture capture victim attacker see_score 0)))) + histv

/-- An oracle on which every predicate is false and every table empty:
the common base for the concrete instances below. -/
def apiD : Api where
  is_checkmate := fun _ => false
  is_stalemate := fun _ => false
  is_insufficient_material := fun _ => false
  can_claim_threefold := fun _ => false
  can_claim_fifty := fun _ => false
  is_check := fun _ => false
  legal_moves := fun _ => []
  is_capture := fun _ _ => false
  gives_check := fun _ _ => false
  piece_at := fun _ _ => none
  is_attacked_by := fun _ _ _ => false
  turn := fun _ => true
  has_non_pawn_material := fun _ _ => false
  hash_key := fun _ => 0
  pieces := fun _ _ _ => 0
  piece_map_size := fun _ => 0
  evaluate := fun _ => 0
  time_expired := fun _ => false
  rand_low := fun _ => false
  choose := fun _ => 0
  probe_csv := fun _ => none
  probe_book := fun _ => none
  probe_tb := fun _ => none

/-- A fresh engine state with one node counted (so `_time_up` skips the
clock poll) and every table empty. -/
def st0 : St where
  nodes := 1
  stop := false
  max_nodes := none
  clockc := 0
  randc := 0
  age := 0
  tt_size := 16777216
  tt := []
  pv_table := []
  killer_moves := []
  history := []
  counter_moves := []

/-- A recursion oracle whose score depends only on the `is_pv` flag it is
called with, separating the two later-move formulations. -/
def recC2 : RecPvs := fun _ _ _ _ pv bd s =>
  ((some (if pv then (-5 : Int) else -7, none) : Option (Int × Option Move)), bd, s)

/-- A recursion oracle that always reports score −100 (so the negated
child score 100 forces a beta cutoff). -/
def recC3 : RecPvs := fun _ _ _ _ _ bd s =>
  ((some ((-100 : Int), none) : Option (Int × Option Move)), bd, s)

/-- An oracle on which every move is a capture. -/
def apiCapture : Api := { apiD with is_capture := fun _ _ => true }

/-- A quiet move a2 → a3. -/
def m0 : Move := ⟨8, 16, none⟩

/-- The pawn move e2 → e4 with a white pawn on e2. -/
def apiE2 : Api := { apiD with piece_at := fun _ sq => if sq = 12 then some ⟨1, true⟩ else none }

/-- The move e2 → e4. -/
def mE2 : Move := ⟨12, 28, none⟩

/-- A limit carrying neither a clock nor a movetime. -/
def limitNone : Limit := ⟨none, none, none, none, none⟩

/-- A clock limit with zero time and zero increment. -/
def limitZero : Limit := ⟨some 0, none, some 0, none, none⟩

/-- An evaluator pinned at −350 (for the depth-2 futility margin). -/
def apiFut : Api := { apiD with evaluate := fun _ => -350 }

/-- An evaluator pinned at 10 (above the witness beta). -/
def apiHighEval : Api := { apiD with evaluate := fun _ => 10 }

/-- A recursive `_pvs` call that neither raises nor leaves the board
changed: it returns some score-move pair and the board it was given. -/
def RecOK (rec : RecPvs) : Prop :=
  ∀ d a b ply pv board st,
    ∃ r st', rec d a b ply pv board st = (some r, board, st')

theorem callNeg_eq {rec : RecPvs} (h : RecOK rec) (d a b : Int) (ply : Nat)
    (pv : Bool) (board : Board) (st : St) :
    ∃ s st', callNeg rec d a b ply pv board st = (some s, board, st') := by
  obtain ⟨⟨sc, mv⟩, st', he⟩ := h d a b ply pv board st
  exact ⟨-sc, st', by simp [callNeg, he]⟩

theorem laterMoveSearch_eq {rec : RecPvs} (h : RecOK rec) (depth alpha beta : Int)
    (ply : Nat) (is_pv do_reduction : Bool) (reduction : Int) (board : Board) (st : St) :
    ∃ s st', laterMoveSearch rec depth alpha beta ply is_pv do_reduction reduction board st =
      (some s, board, st') := by
  unfold laterMoveSearch
  by_cases hdr : do_reduction = true
  · obtain ⟨s0, st0, he0⟩ :=
      callNeg_eq h (depth - 1 - reduction) (-alpha - 1) (-alpha) (ply + 1) false board st
    rw [hdr, if_pos rfl, he0]
    dsimp only
    by_cases hc : s0 > alpha ∧ true = true
    · obtain ⟨s1, st1, he1⟩ :=
        callNeg_eq h (depth - 1) (-alpha - 1) (-alpha) (ply + 1) false board st0
      rw [if_pos hc, he1]
      dsimp only
      by_cases hc2 : s1 > alpha ∧ s1 < beta
      · obtain ⟨s2, st2, he2⟩ :=
          callNeg_eq h (depth - 1) (-beta) (-alpha) (ply + 1) is_pv board st1
        rw [if_pos hc2, he2]
        exact ⟨s2, st2, rfl⟩
      · rw [if_neg hc2]
        exact ⟨s1, st1, rfl⟩
    · rw [if_neg hc]
      dsimp only
      by_cases hc2 : s0 > alpha ∧ s0 < beta
      · obtain ⟨s2, st2, he2⟩ :=
          callNeg_eq h (depth - 1) (-beta) (-alpha) (ply + 1) is_pv board st0
        rw [if_pos hc2, he2]
        exact ⟨s2, st2, rfl⟩
      · rw [if_neg hc2]
        exact ⟨s0, st0, rfl⟩
  · simp only [Bool.not_eq_true] at hdr
    subst hdr
    simp only [Bool.false_eq_true, if_false]
    rw [if_neg (by simp : ¬(alpha + 1 > alpha ∧ False))]
    dsimp only
    by_cases hc2 : alpha + 1 > alpha ∧ alpha + 1 < beta
    · obtain ⟨s2, st2, he2⟩ :=
        callNeg_eq h (depth - 1) (-beta) (-alpha) (ply + 1) is_pv board st
      rw [if_pos hc2, he2]
      exact ⟨s2, st2, rfl⟩
    · rw [if_neg hc2]
      exact ⟨alpha + 1, st, rfl⟩

theorem pvsLoop_eq {rec : RecPvs} (h : RecOK rec) (api : Api) (key : Nat)
    (depth beta : Int) (ply : Nat) (is_pv is_check : Bool) :
    ∀ (moves : List Move) (alpha best_score : Int) (best_move : Option Move)
      (msc : Nat) (board : Board) (st : St),
      ∃ r st', pvsLoop rec api key depth beta ply is_pv is_check moves
        alpha best_score best_move msc board st = (some r, board, st') := by
  intro moves
  induction moves with
  | nil =>
    intro alpha bs bm msc board st
    exact ⟨(bs, bm), st, rfl⟩
  | cons m ms ih =>
    intro alpha bs bm msc board st
    rcases hdo : decideReduction api is_pv is_check msc depth (m :: board) m with ⟨dr, red⟩
    simp only [pvsLoop]
    rw [hdo]
    dsimp only
    have hrun : ∃ s st1,
        (if msc = 0 then callNeg rec (depth - 1) (-beta) (-alpha) (ply + 1) is_pv (m :: board) st
         else laterMoveSearch rec depth alpha beta ply is_pv dr red (m :: board) st) =
          (some s, m :: board, st1) := by
      by_cases h0 : msc = 0
      · obtain ⟨s, st1, he⟩ :=
          callNeg_eq h (depth - 1) (-beta) (-alpha) (ply + 1) is_pv (m :: board) st
        exact ⟨s, st1, by rw [if_pos h0, he]⟩
      · obtain ⟨s, st1, he⟩ :=
          laterMoveSearch_eq h depth alpha beta ply is_pv dr red (m :: board) st
        exact ⟨s, st1, by rw [if_neg h0, he]⟩
    obtain ⟨s, st1, he⟩ := hrun
    rw [he]
    dsimp only [List.tail_cons]
    rcases hu : loopUpdate api key depth beta ply m s alpha bs bm board st1
      with ⟨alpha2, bs2, bm2, st2, broke⟩
    dsimp only
    by_cases hbr : broke = true
    · rw [hbr, if_pos rfl]
      exact ⟨(bs2, bm2), st2, rfl⟩
    · simp only [Bool.not_eq_true] at hbr
      subst hbr
      simp only [Bool.false_eq_true, if_false]
      rcases ht : time_up api st2 with ⟨tu, st3⟩
      dsimp only
      by_cases htu : tu = true
      · rw [htu, if_pos rfl]
        exact ⟨(bs2, bm2), st3, rfl⟩
      · simp only [Bool.not_eq_true] at htu
        subst htu
        simp only [Bool.false_eq_true, if_false]
        exact ih alpha2 bs2 bm2 (msc + 1) board st3

/-- A recursive `_quiescence` call that leaves the board unchanged. -/
def QRecOK (rec : Int → Int → Nat → Board → St → Int × Board × St) : Prop :=
  ∀ a b ply board st, ∃ q st', rec a b ply board st = (q, board, st')

theorem qLoop_eq {rec : Int → Int → Nat → Board → St → Int × Board × St}
    (h : QRecOK rec) (api : Api) (beta : Int) (ply : Nat) (key : Nat) :
    ∀ (ms : List Move) (alpha : Int) (board : Board) (st : St),
      ∃ r alpha' st', qLoop rec api beta ply key ms alpha board st = (r, alpha', board, st') := by
  intro ms
  induction ms with
  | nil =>
    intro alpha board st
    exact ⟨none, alpha, st, rfl⟩
  | cons m ms ih =>
    intro alpha board st
    simp only [qLoop]
    by_cases hskip : (!api.gives_check board m && decide (see api board m < 0)) = true
    · rw [if_pos hskip]
      exact ih alpha board st
    · rw [if_neg hskip]
      obtain ⟨q, st1, he⟩ := h (-beta) (-alpha) (ply + 1) (m :: board) st
      rw [he]
      dsimp only [List.tail_cons]
      by_cases hb : -q ≥ beta
      · rw [if_pos hb]
        exact ⟨some beta, alpha, _, rfl⟩
      · rw [if_neg hb]
        rcases ht : time_up api st1 with ⟨tu, st2⟩
        dsimp only
        by_cases htu : tu = true
        · rw [htu, if_pos rfl]
          exact ⟨none, _, st2, rfl⟩
        · simp only [Bool.not_eq_true] at htu
          subst htu
          simp only [Bool.false_eq_true, if_false]
          exact ih _ board st2

theorem qTail_eq {rec : Int → Int → Nat → Board → St → Int × Board × St}
    (h : QRecOK rec) (api : Api) (alpha beta : Int) (ply : Nat) (key : Nat)
    (board : Board) (st : St) :
    ∃ v st', qTail rec api alpha beta ply key board st = (v, board, st') := by
  unfold qTail
  obtain ⟨r, alpha1, st1, he⟩ :=
    qLoop_eq h api beta ply key (ordered_captures api board) alpha board st
  rw [he]
  rcases r with _ | v
  · exact ⟨alpha1, _, rfl⟩
  · exact ⟨v, st1, rfl⟩

theorem quiescence_eq (api : Api) :
    ∀ (fuel : Nat) (alpha beta : Int) (ply : Nat) (board : Board) (st : St),
      ∃ v st', quiescence api fuel alpha beta ply board st = (v, board, st') := by
  intro fuel
  induction fuel with
  | zero =>
    intro alpha beta ply board st
    exact ⟨0, st, rfl⟩
  | succ fuel ih =>
    intro alpha beta ply board st
    simp only [quiescence]
    rcases htu : time_up api st with ⟨tu, st1⟩
    dsimp only
    by_cases ht : tu = true
    · rw [ht, if_pos rfl]
      exact ⟨0, st1, rfl⟩
    · simp only [Bool.not_eq_true] at ht
      subst ht
      simp only [Bool.false_eq_true, if_false]
      rcases hq : qcut (assocFind (api.hash_key board) ({ st1 with nodes := st1.nodes + 1 }).tt)
          alpha beta with _ | r
      · rw [hq]
        dsimp only
        by_cases h1 : api.evaluate board ≥ beta
        · rw [if_pos h1]
          exact ⟨beta, _, rfl⟩
        · rw [if_neg h1]
          by_cases h2 : api.evaluate board < alpha - 975
          · rw [if_pos h2]
            exact ⟨alpha, _, rfl⟩
          · rw [if_neg h2]
            exact qTail_eq (fun a b p bd s => ih a b p bd s) api _ beta ply
              (api.hash_key board) board _
      · rw [hq]
        exact ⟨r, _, rfl⟩

theorem pvsTail_eq {rec : RecPvs} (h : RecOK rec) (api : Api) (depth alpha beta : Int)
    (ply : Nat) (is_pv : Bool) (allowed : Option (List Move)) (is_check : Bool)
    (key : Nat) (tt_move : Option Move) (board : Board) (st : St) :
    ∃ r st', pvsTail rec api depth alpha beta ply is_pv allowed is_check key tt_move board st =
      (some r, board, st') := by
  simp only [pvsTail]
  rcases hm : (match allowed with
    | some ar => if ply = 0 then
        (ordered_moves api board tt_move ply st).filter (fun m => ar.contains m)
      else ordered_moves api board tt_move ply st
    | none => ordered_moves api board tt_move ply st) with _ | ⟨m, ms⟩
  · rw [hm]
    exact ⟨(0, none), st, rfl⟩
  · rw [hm]
    dsimp only [List.isEmpty_cons]
    obtain ⟨r, st', he⟩ := pvsLoop_eq h api key (if is_check then depth + 1 else depth) beta
      ply is_pv is_check (m :: ms) alpha (-INF) none 0 board st
    rw [he]
    exact ⟨r, _, rfl⟩

theorem pyGet_margin {d : Int} (h1 : 1 ≤ d) (h3 : d ≤ 3) :
    ∃ mg, pyGet futilityMargins d = some mg := by
  have hd : d = 1 ∨ d = 2 ∨ d = 3 := by omega
  rcases hd with h | h | h <;> subst h
  · exact ⟨200, by decide⟩
  · exact ⟨350, by decide⟩
  · exact ⟨500, by decide⟩

theorem pvsMain_eq {rec : RecPvs} (h : RecOK rec) (api : Api) (depth alpha beta : Int)
    (ply : Nat) (is_pv : Bool) (allowed : Option (List Move)) (is_check : Bool)
    (key : Nat) (tt_move0 : Option Move) (board : Board) (st : St) (hd : 1 ≤ depth) :
    ∃ r st', pvsMain rec api depth alpha beta ply is_pv allowed is_check key tt_move0 board st =
      (some r, board, st') := by
  simp only [pvsMain]
  have hiid : ∃ ttm st1,
      (if is_pv = true ∧ tt_move0 = none ∧ depth ≥ 4 then
         match rec (depth - 2) alpha beta ply true board st with
         | (none, b2, st2) => (none, tt_move0, b2, st2)
         | (some (_, iid_move), b2, st2) =>
           (some 0, (match iid_move with | some mv => some mv | none => tt_move0), b2, st2)
       else (some 0, tt_move0, board, st) :
       Option Int × Option Move × Board × St) = (some 0, ttm, board, st1) := by
    by_cases hc : is_pv = true ∧ tt_move0 = none ∧ depth ≥ 4
    · obtain ⟨⟨sc, iid⟩, st2, he⟩ := h (depth - 2) alpha beta ply true board st
      rw [if_pos hc, he]
      exact ⟨_, st2, rfl⟩
    · rw [if_neg hc]
      exact ⟨tt_move0, st, rfl⟩
  obtain ⟨ttm, st1, he⟩ := hiid
  rw [he]
  dsimp only
  by_cases hfut : depth ≤ 3 ∧ is_pv = false ∧ is_check = false ∧ abs alpha < MATE_SCORE - 100
  · rw [if_pos hfut]
    obtain ⟨mg, hmg⟩ := pyGet_margin hd hfut.1
    rw [hmg]
    dsimp only
    by_cases hev : api.evaluate board + mg ≤ alpha
    · rw [if_pos hev]
      exact ⟨(alpha, none), st1, rfl⟩
    · rw [if_neg hev]
      exact pvsTail_eq h api depth alpha beta ply is_pv allowed is_check key ttm board st1
  · rw [if_neg hfut]
    exact pvsTail_eq h api depth alpha beta ply is_pv allowed is_check key ttm board st1

theorem pvs_eq (api : Api) :
    ∀ (fuel : Nat) (depth alpha beta : Int) (ply : Nat) (is_pv : Bool)
      (allowed : Option (List Move)) (board : Board) (st : St),
      ∃ r st', pvs api fuel depth alpha beta ply is_pv allowed board st = (some r, board, st') := by
  intro fuel
  induction fuel with
  | zero =>
    intro depth alpha beta ply is_pv allowed board st
    exact ⟨(0, none), st, rfl⟩
  | succ fuel ih =>
    intro depth alpha beta ply is_pv allowed board st
    have hrec : RecOK (fun d a b p pv bd s => pvs api fuel d a b p pv none bd s) :=
      fun d a b p pv bd s => ih d a b p pv none bd s
    simp only [pvs]
    rcases htu : time_up api st with ⟨tu, st1⟩
    dsimp only
    by_cases ht : tu = true
    · rw [ht, if_pos rfl]
      exact ⟨(0, none), st1, rfl⟩
    · simp only [Bool.not_eq_true] at ht
      subst ht
      simp only [Bool.false_eq_true, if_false]
      by_cases hcm : api.is_checkmate board = true
      · rw [if_pos hcm]
        exact ⟨_, _, rfl⟩
      · rw [if_neg hcm]
        by_cases hsm : (api.is_stalemate board || api.is_insufficient_material board) = true
        · rw [if_pos hsm]
          exact ⟨_, _, rfl⟩
        · rw [if_neg hsm]
          by_cases hdr : (api.can_claim_threefold board || api.can_claim_fifty board) = true
          · rw [if_pos hdr]
            exact ⟨_, _, rfl⟩
          · rw [if_neg hdr]
            by_cases hmd : max alpha (-MATE_SCORE + (ply : Int)) ≥
                min beta (MATE_SCORE - (ply : Int) - 1)
            · rw [if_pos hmd]
              exact ⟨_, _, rfl⟩
            · rw [if_neg hmd]
              rcases hq : ttCut (assocFind (api.hash_key board)
                  ({ st1 with nodes := st1.nodes + 1 }).tt) depth
                  (max alpha (-MATE_SCORE + (ply : Int)))
                  (min beta (MATE_SCORE - (ply : Int) - 1)) is_pv with _ | r
              · rw [hq]
                dsimp only
                by_cases hd0 : depth ≤ 0
                · rw [if_pos hd0]
                  obtain ⟨v, st', he⟩ := quiescence_eq api fuel
                    (max alpha (-MATE_SCORE + (ply : Int)))
                    (min beta (MATE_SCORE - (ply : Int) - 1)) ply board
                    { st1 with nodes := st1.nodes + 1 }
                  rw [he]
                  exact ⟨(v, none), st', rfl⟩
                · rw [if_neg hd0]
                  have hd1 : 1 ≤ depth := by omega
                  by_cases hnl : is_pv = false ∧ api.is_check board = false ∧ depth ≥ 3 ∧
                      api.has_non_pawn_material board (api.turn board) = true
                  · rw [if_pos hnl]
                    obtain ⟨⟨ns, mv⟩, st', he⟩ := ih (depth - 1 - (if depth > 6 then 3 else 2))
                      (-(min beta (MATE_SCORE - (ply : Int) - 1)))
                      (-(min beta (MATE_SCORE - (ply : Int) - 1)) + 1) (ply + 1) false none
                      (nullMove :: board) { st1 with nodes := st1.nodes + 1 }
                    rw [he]
                    dsimp only [List.tail_cons]
                    by_cases hnb : -ns ≥ min beta (MATE_SCORE - (ply : Int) - 1)
                    · rw [if_pos hnb]
                      exact ⟨_, _, rfl⟩
                    · rw [if_neg hnb]
                      exact pvsMain_eq hrec api depth _ _ ply is_pv allowed
                        (api.is_check board) (api.hash_key board) _ board st' hd1
                  · rw [if_neg hnl]
                    exact pvsMain_eq hrec api depth _ _ ply is_pv allowed
                      (api.is_check board) (api.hash_key board) _ board
                      { st1 with nodes := st1.nodes + 1 } hd1
              · rw [hq]
                exact ⟨r, _, rfl⟩

theorem extract_pv_loop_spec (api : Api) (st : St) :
    ∀ (n : Nat) (seen : List Nat) (pv : List Move) (board : Board),
      ∃ suffix, (extract_pv_loop api st n seen pv board).1 = pv ++ suffix ∧
        (extract_pv_loop api st n seen pv board).2 = suffix.reverse ++ board := by
  intro n
  induction n with
  | zero =>
    intro seen pv board
    exact ⟨[], by simp [extract_pv_loop], by simp [extract_pv_loop]⟩
  | succ n ih =>
    intro seen pv board
    simp only [extract_pv_loop]
    by_cases h1 : (seen.contains (api.hash_key board)) = true
    · rw [if_pos h1]
      exact ⟨[], by simp, by simp⟩
    · rw [if_neg h1]
      rcases hf : assocFind (api.hash_key board) st.pv_table with _ | mv
      · exact ⟨[], by simp, by simp⟩
      · dsimp only
        by_cases h2 : ((api.legal_moves board).contains mv) = true
        · rw [if_pos h2]
          obtain ⟨suf, hs1, hs2⟩ := ih (api.hash_key board :: seen) (pv ++ [mv]) (mv :: board)
          refine ⟨mv :: suf, ?_, ?_⟩
          · rw [hs1]; simp
          · rw [hs2]; simp
        · rw [if_neg h2]
          exact ⟨[], by simp, by simp⟩

theorem popN_append : ∀ (l : List Move) (b : Board), popN l.length (l ++ b) = b := by
  intro l
  induction l with
  | nil => intro b; rfl
  | cons x xs ih =>
    intro b
    simp only [List.length_cons, List.cons_append, popN, List.tail_cons]
    exact ih b

theorem extract_pv_restores (api : Api) (st : St) (board : Board) :
    (extract_pv api st board).2 = board := by
  unfold extract_pv
  obtain ⟨suf, h1, h2⟩ := extract_pv_loop_spec api st 20 [] [] board
  rcases he : extract_pv_loop api st 20 [] [] board with ⟨pv, b⟩
  rw [he] at h1 h2
  dsimp only at h1 h2 ⊢
  simp only [List.nil_append] at h1
  rw [h1, h2, ← List.length_reverse suf]
  exact popN_append _ _

theorem idLoop_eq (api : Api) (allowed : Option (List Move)) (fuel : Nat) :
    ∀ (ds : List Nat) (bm : Option Move) (bs : Int) (pv : List Move) (ld : Nat)
      (board : Board) (st : St),
      ∃ r st', idLoop api allowed fuel ds bm bs pv ld board st = (some r, board, st') := by
  intro ds
  induction ds with
  | nil =>
    intro bm bs pv ld board st
    exact ⟨(bm, bs, pv, ld), st, rfl⟩
  | cons d ds ih =>
    intro bm bs pv ld board st
    simp only [idLoop]
    rcases htu : time_up api st with ⟨tu, st1⟩
    dsimp only
    by_cases ht : tu = true
    · rw [ht, if_pos rfl]
      exact ⟨_, st1, rfl⟩
    · simp only [Bool.not_eq_true] at ht
      subst ht
      simp only [Bool.false_eq_true, if_false]
      obtain ⟨⟨score, move⟩, st2, he⟩ := pvs_eq api fuel (d : Int) (max (-INF) (bs - 50))
        (min INF (bs + 50)) 0 true allowed board { st1 with pv_table := [] }
      rw [he]
      dsimp only
      have hsecond : ∃ score2 move2 st3,
          (if score ≤ max (-INF) (bs - 50) ∨ score ≥ min INF (bs + 50) then
             pvs api fuel (d : Int) (-INF) INF 0 true allowed board st2
           else (some (score, move), board, st2)) = (some (score2, move2), board, st3) := by
        by_cases hasp : score ≤ max (-INF) (bs - 50) ∨ score ≥ min INF (bs + 50)
        · obtain ⟨⟨s2, m2⟩, st3, he2⟩ := pvs_eq api fuel (d : Int) (-INF) INF 0 true allowed board st2
          exact ⟨s2, m2, st3, by rw [if_pos hasp, he2]⟩
        · exact ⟨score, move, st2, by rw [if_neg hasp]⟩
      obtain ⟨score2, move2, st3, he2⟩ := hsecond
      rw [he2]
      dsimp only
      rcases move2 with _ | mv
      · dsimp only
        rcases ht2 : time_up api st3 with ⟨tu2, st4⟩
        dsimp only
        by_cases h2 : tu2 = true
        · rw [h2, if_pos rfl]
          exact ⟨_, st4, rfl⟩
        · simp only [Bool.not_eq_true] at h2
          subst h2
          simp only [Bool.false_eq_true, if_false]
          by_cases h3 : (match st4.max_nodes with
              | some n => decide (0 < n ∧ n ≤ st4.nodes)
              | none => false) = true
          · rw [if_pos h3]
            exact ⟨_, st4, rfl⟩
          · rw [if_neg h3]
            by_cases h4 : abs bs > MATE_SCORE - 100
            · rw [if_pos h4]
              exact ⟨_, st4, rfl⟩
            · rw [if_neg h4]
              exact ih bm bs pv d board st4
      · dsimp only
        rcases hx : extract_pv api st3 board with ⟨pvl, b2⟩
        have hb2 : b2 = board := by
          have := extract_pv_restores api st3 board
          rw [hx] at this
          exact this
        rw [hb2]
        dsimp only
        rcases ht2 : time_up api st3 with ⟨tu2, st4⟩
        dsimp only
        by_cases h2 : tu2 = true
        · rw [h2, if_pos rfl]
          exact ⟨_, st4, rfl⟩
        · simp only [Bool.not_eq_true] at h2
          subst h2
          simp only [Bool.false_eq_true, if_false]
          by_cases h3 : (match st4.max_nodes with
              | some n => decide (0 < n ∧ n ≤ st4.nodes)
              | none => false) = true
          · rw [if_pos h3]
            exact ⟨_, st4, rfl⟩
          · rw [if_neg h3]
            by_cases h4 : abs score2 > MATE_SCORE - 100
            · rw [if_pos h4]
              exact ⟨_, st4, rfl⟩
            · rw [if_neg h4]
              exact ih (some mv) score2 pvl d board st4

theorem mem_insertDesc {α : Type} (f : α → Int) (a x : α) :
    ∀ l : List α, x ∈ insertDesc f a l ↔ x = a ∨ x ∈ l := by
  intro l
  induction l with
  | nil => simp [insertDesc]
  | cons y ys ih =>
    simp only [insertDesc]
    by_cases h : f y > f a
    · rw [if_pos h]
      simp only [List.mem_cons, ih]
      tauto
    · rw [if_neg h]
      simp only [List.mem_cons]

theorem mem_sortDesc {α : Type} (f : α → Int) (x : α) :
    ∀ l : List α, x ∈ sortDesc f l ↔ x ∈ l := by
  intro l
  induction l with
  | nil => simp [sortDesc]
  | cons y ys ih =>
    simp only [sortDesc, mem_insertDesc, ih, List.mem_cons]

theorem filter_sortDesc_nil {α : Type} (f : α → Int) (p : α → Bool) (l : List α)
    (h : l.filter p = []) : (sortDesc f l).filter p = [] := by
  rw [List.filter_eq_nil_iff] at h ⊢
  intro x hx
  exact h x ((mem_sortDesc f x l).1 hx)

theorem ttCut_pv (entry : Option TTEntry) (depth alpha beta : Int) :
    ttCut entry depth alpha beta true = none := by
  cases entry <;> simp [ttCut]

theorem pvsTail_root_none (rec : RecPvs) (api : Api) (depth alpha beta : Int)
    (is_pv : Bool) (allowed : Option (List Move)) (is_check : Bool)
    (key : Nat) (tt_move : Option Move) (board : Board) (st : St)
    (hmoves : (match allowed with
      | none => api.legal_moves board
      | some ar => (api.legal_moves board).filter (fun m => ar.contains m)) = []) :
    pvsTail rec api depth alpha beta 0 is_pv allowed is_check key tt_move board st =
      (some (0, none), board, st) := by
  rcases allowed with _ | ar
  · simp only at hmoves
    simp only [pvsTail, ordered_moves, hmoves]
    rfl
  · simp only at hmoves
    have hf : List.filter (fun m => ar.contains m) (ordered_moves api board tt_move 0 st) = [] := by
      simp only [ordered_moves]
      exact filter_sortDesc_nil _ _ _ hmoves
    simp only [pvsTail, if_true]
    rw [hf]
    rfl

theorem pvsMain_root_none {rec : RecPvs} (h : RecOK rec) (api : Api)
    (depth alpha beta : Int) (allowed : Option (List Move)) (is_check : Bool)
    (key : Nat) (tt_move0 : Option Move) (board : Board) (st : St)
    (hmoves : (match allowed with
      | none => api.legal_moves board
      | some ar => (api.legal_moves board).filter (fun m => ar.contains m)) = []) :
    ∃ st', pvsMain rec api depth alpha beta 0 true allowed is_check key tt_move0 board st =
      (some (0, none), board, st') := by
  simp only [pvsMain, eq_self_iff_true, true_and, Bool.true_eq_false, false_and, and_false,
    if_false]
  have hiid : ∃ ttm st1,
      (if tt_move0 = none ∧ depth ≥ 4 then
         match rec (depth - 2) alpha beta 0 true board st with
         | (none, b2, st2) => (none, tt_move0, b2, st2)
         | (some (_, iid_move), b2, st2) =>
           (some 0, (match iid_move with | some mv => some mv | none => tt_move0), b2, st2)
       else (some 0, tt_move0, board, st) :
       Option Int × Option Move × Board × St) = (some 0, ttm, board, st1) := by
    by_cases hc : tt_move0 = none ∧ depth ≥ 4
    · obtain ⟨⟨sc, iid⟩, st2, he⟩ := h (depth - 2) alpha beta 0 true board st
      rw [if_pos hc, he]
      exact ⟨_, st2, rfl⟩
    · rw [if_neg hc]
      exact ⟨tt_move0, st, rfl⟩
  obtain ⟨ttm, st1, he⟩ := hiid
  rw [he]
  dsimp only
  exact ⟨st1, pvsTail_root_none rec api depth alpha beta true allowed is_check key ttm board st1 hmoves⟩

theorem pvs_root_none (api : Api) (fuel : Nat) (depth alpha beta : Int)
    (allowed : Option (List Move)) (board : Board) (st : St)
    (hmoves : (match allowed with
      | none => api.legal_moves board
      | some ar => (api.legal_moves board).filter (fun m => ar.contains m)) = []) :
    ∃ s st', pvs api fuel depth alpha beta 0 true allowed board st = (some (s, none), board, st') := by
  rcases fuel with _ | fuel
  · exact ⟨0, st, rfl⟩
  · have hrec : RecOK (fun d a b p pv bd s => pvs api fuel d a b p pv none bd s) :=
      fun d a b p pv bd s => pvs_eq api fuel d a b p pv none bd s
    simp only [pvs]
    rcases htu : time_up api st with ⟨tu, st1⟩
    dsimp only
    by_cases ht : tu = true
    · rw [ht, if_pos rfl]
      exact ⟨0, st1, rfl⟩
    · simp only [Bool.not_eq_true] at ht
      subst ht
      simp only [Bool.false_eq_true, if_false]
      by_cases hcm : api.is_checkmate board = true
      · rw [if_pos hcm]
        exact ⟨_, _, rfl⟩
      · rw [if_neg hcm]
        by_cases hsm : (api.is_stalemate board || api.is_insufficient_material board) = true
        · rw [if_pos hsm]
          exact ⟨_, _, rfl⟩
        · rw [if_neg hsm]
          by_cases hdr : (api.can_claim_threefold board || api.can_claim_fifty board) = true
          · rw [if_pos hdr]
            exact ⟨_, _, rfl⟩
          · rw [if_neg hdr]
            by_cases hmd : max alpha (-MATE_SCORE + ((0 : Nat) : Int)) ≥
                min beta (MATE_SCORE - ((0 : Nat) : Int) - 1)
            · rw [if_pos hmd]
              exact ⟨_, _, rfl⟩
            · rw [if_neg hmd]
              rw [ttCut_pv]
              dsimp only
              by_cases hd0 : depth ≤ 0
              · rw [if_pos hd0]
                obtain ⟨v, st', he⟩ := quiescence_eq api fuel
                  (max alpha (-MATE_SCORE + ((0 : Nat) : Int)))
                  (min beta (MATE_SCORE - ((0 : Nat) : Int) - 1)) 0 board
                  { st1 with nodes := st1.nodes + 1 }
                rw [he]
                exact ⟨v, st', rfl⟩
              · rw [if_neg hd0]
                rw [if_neg (by simp : ¬((true : Bool) = false ∧ api.is_check board = false ∧
                  depth ≥ 3 ∧ api.has_non_pawn_material board (api.turn board) = true))]
                obtain ⟨st', he⟩ := pvsMain_root_none hrec api depth _ _ allowed
                  (api.is_check board) (api.hash_key board) _ board
                  { st1 with nodes := st1.nodes + 1 } hmoves
                rw [he]
                exact ⟨0, st', rfl⟩

theorem idLoop_keep_none (api : Api) (allowed : Option (List Move)) (fuel : Nat)
    (board : Board)
    (hmoves : (match allowed with
      | none => api.legal_moves board
      | some ar => (api.legal_moves board).filter (fun m => ar.contains m)) = []) :
    ∀ (ds : List Nat) (pv : List Move) (ld : Nat) (st : St),
      ∃ ld' st', idLoop api allowed fuel ds none 0 pv ld board st =
        (some (none, 0, pv, ld'), board, st') := by
  intro ds
  induction ds with
  | nil =>
    intro pv ld st
    exact ⟨ld, st, rfl⟩
  | cons d ds ih =>
    intro pv ld st
    simp only [idLoop]
    rcases htu : time_up api st with ⟨tu, st1⟩
    dsimp only
    by_cases ht : tu = true
    · rw [ht, if_pos rfl]
      exact ⟨ld, st1, rfl⟩
    · simp only [Bool.not_eq_true] at ht
      subst ht
      simp only [Bool.false_eq_true, if_false]
      obtain ⟨s, st2, he⟩ := pvs_root_none api fuel (d : Int) (max (-INF) (0 - 50))
        (min INF (0 + 50)) allowed board { st1 with pv_table := [] } hmoves
      rw [he]
      dsimp only
      have hsecond : ∃ s2 st3,
          (if s ≤ max (-INF) (0 - 50) ∨ s ≥ min INF (0 + 50) then
             pvs api fuel (d : Int) (-INF) INF 0 true allowed board st2
           else (some (s, none), board, st2)) = (some (s2, (none : Option Move)), board, st3) := by
        by_cases hasp : s ≤ max (-INF) (0 - 50) ∨ s ≥ min INF (0 + 50)
        · obtain ⟨s2, st3, he2⟩ := pvs_root_none api fuel (d : Int) (-INF) INF allowed board st2 hmoves
          exact ⟨s2, st3, by rw [if_pos hasp, he2]⟩
        · exact ⟨s, st2, by rw [if_neg hasp]⟩
      obtain ⟨s2, st3, he2⟩ := hsecond
      rw [he2]
      dsimp only
      rcases ht2 : time_up api st3 with ⟨tu2, st4⟩
      dsimp only
      by_cases h2 : tu2 = true
      · rw [h2, if_pos rfl]
        exact ⟨d, st4, rfl⟩
      · simp only [Bool.not_eq_true] at h2
        subst h2
        simp only [Bool.false_eq_true, if_false]
        by_cases h3 : (match st4.max_nodes with
            | some n => decide (0 < n ∧ n ≤ st4.nodes)
            | none => false) = true
        · rw [if_pos h3]
          exact ⟨d, st4, rfl⟩
        · rw [if_neg h3]
          rw [if_neg (by decide : ¬(abs (0 : Int) > MATE_SCORE - 100))]
          exact ih pv d st4

/-- C1.  For every input board, time limit and oracle, `search` hands back
the board exactly as it received it: every push performed anywhere during
the search (move loop, null move, SEE probes, quiescence, PV extraction)
is balanced by a pop on every exit path, including the timeout returns. -/
theorem search_board_restored (api : Api) (max_depth fuel : Nat)
    (tl : Option Limit) (rm : Option (List Move)) (board : Board) (st : St) :
    (search api max_depth fuel tl rm board st).2.1 = board := by
  simp only [search]
  rcases hp : opening_probe api board with _ | m
  · dsimp only
    rcases hc : calculate_time_allocation api board tl max_depth with _ | ⟨alloc, amd⟩
    · rfl
    · dsimp only
      obtain ⟨⟨score, move⟩, st2, he⟩ := pvs_eq api fuel 1 (-INF) INF 0 true rm board _
      rw [he]
      dsimp only
      rcases move with _ | mv
      · dsimp only
        obtain ⟨⟨bm3, bs3, pv3, ld3⟩, st3, he3⟩ := idLoop_eq api rm fuel
          (List.range' 2 (amd - 1)) none 0 [] 1 board st2
        rw [he3]
      · dsimp only
        rcases hx : extract_pv api st2 board with ⟨pvl, b2⟩
        have hb2 : b2 = board := by
          have := extract_pv_restores api st2 board
          rw [hx] at this
          exact this
        rw [hb2]
        dsimp only
        obtain ⟨⟨bm3, bs3, pv3, ld3⟩, st3, he3⟩ := idLoop_eq api rm fuel
          (List.range' 2 (amd - 1)) (some mv) score pvl 1 board st2
        rw [he3]
  · rfl

/-- C10.  For every en-passant capture — a capture whose destination
square holds no piece — `_see` returns 0: the victim lookup at the
destination yields `None` and the function takes its early return-0 path
instead of computing victim − attacker. -/
theorem see_en_passant (api : Api) (board : Board) (m : Move)
    (hcap : api.is_capture board m = true)
    (hvictim : api.piece_at board m.toSq = none) :
    see api board m = 0 := by
  simp [see, hcap, hvictim]

theorem see_en_passant_witness :
    apiCapture.is_capture [] m0 = true ∧ apiCapture.piece_at [] m0.toSq = none ∧
      see apiCapture [] m0 = 0 :=
  ⟨rfl, rfl, see_en_passant apiCapture [] m0 rfl rfl⟩

/-- C8 (code bug).  Eleven of the engine's piece-square tables have 64
entries, but the middlegame bishop table literal has 72: its closing rank
is written twice.  Only indices 0–63 are ever read, so the extra rank is
dead data, yet the claim "12 fixed arrays of 64 ints each" fails on
`BISHOP_MG`. -/
theorem pst_bishop_mg_oversized :
    BISHOP_MG.length = 72 ∧
      PAWN_MG.length = 64 ∧ KNIGHT_MG.length = 64 ∧ ROOK_MG.length = 64 ∧
      QUEEN_MG.length = 64 ∧ KING_MG.length = 64 ∧ PAWN_EG.length = 64 ∧
      KNIGHT_EG.length = 64 ∧ BISHOP_EG.length = 64 ∧ ROOK_EG.length = 64 ∧
      QUEEN_EG.length = 64 ∧ KING_EG.length = 64 := by
  decide

/-- C5 (counterexample).  Called with a limit that provides neither a
clock nor a movetime and the depth cap 20, the time manager does not
return `(1.0, cap)`: it returns the hard-coded `(1.0, 10)`. -/
theorem time_alloc_not_cap :
    calculate_time_allocation apiD [] (some limitNone) 20 ≠ some ((1 : ℚ), 20) := by
  decide

/-- C5 (amended).  With neither a clock (`white_clock = None`) nor a
movetime (`time = None`), `calculate_time_allocation` returns the fixed
allocation `(1.0, 10)` — the depth cap it was passed is ignored. -/
theorem time_alloc_no_clock (api : Api) (board : Board) (l : Limit) (cap : Nat)
    (hw : l.white_clock = none) (ht : l.time = none) :
    calculate_time_allocation api board (some l) cap = some (1, 10) := by
  simp [calculate_time_allocation, hw, ht]

theorem time_alloc_no_clock_witness :
    limitNone.white_clock = none ∧ limitNone.time = none ∧
      calculate_time_allocation apiD [] (some limitNone) 20 = some (1, 10) :=
  ⟨rfl, rfl, time_alloc_no_clock apiD [] limitNone 20 rfl rfl⟩

/-- C4 (counterexample).  The ordering score of the quiet pawn move
e2 → e4 is 2000 (the centralisation bonus), while the claimed formula —
capture, promotion, check, killer/counter and history terms only — gives
0: the source adds bonuses the claim says do not exist. -/
theorem order_score_cex :
    order_score apiE2 [] none [] none [] mE2 ≠ order_score_per_claim apiE2 [] none [] none [] mE2 := by
  decide

theorem stage_capture_zero (capture : Bool) (victim attacker : Option Piece)
    (see_score s : Int) :
    stage_capture capture victim attacker see_score s =
      s + (if capture then
             match victim, attacker with
             | some v, some a =>
                 100000 + pieceValue v.ptype * 100 - pieceValue a.ptype +
                   (if see_score > 0 then see_score else 0)
             | _, _ => 0
           else 0) := by
  rcases victim with _ | v <;> rcases attacker with _ | a <;>
    simp only [stage_capture] <;> split_ifs <;> omega

theorem stage_promo_zero (m : Move) (s : Int) :
    stage_promo m s =
      s + (if m.promotion = some 5 then 900000
           else if truthyOpt m.promotion then 300000 else 0) := by
  simp only [stage_promo]
  split_ifs <;> omega

theorem stage_check_zero (chk : Bool) (s : Int) :
    stage_check chk s = s + (if chk then 50000 else 0) := by
  simp only [stage_check]
  split_ifs <;> omega

theorem stage_piece_zero (m : Move) (piece : Option Piece) (s : Int) :
    stage_piece m piece s =
      s + (match piece with
           | some p =>
               (if p.ptype = 1 ∧ p.color = true ∧ square_rank m.toSq ≥ 5 then
                  ((square_rank m.toSq : Int) - 4) * 10000
                else if p.ptype = 1 ∧ p.color = false ∧ square_rank m.toSq ≤ 2 then
                  (3 - (square_rank m.toSq : Int)) * 10000
                else 0)
               + (if centerDist2 m.toSq < centerDist2 m.fromSq then
                    (centerDist2 m.fromSq - centerDist2 m.toSq) * 500
                  else 0)
           | none => 0) := by
  rcases piece with _ | p <;> simp only [stage_piece] <;> (try split_ifs) <;> omega

theorem stage_killer_zero (m : Move) (killers : List Move) (counter : Option Move) (s : Int) :
    stage_killer m killers counter s =
      s + (if killers.contains m then 80000
           else if counter = some m then 70000 else 0) := by
  simp only [stage_killer]
  split_ifs <;> omega

/-- C4 (amended).  Every legal move's ordering score is exactly the
claimed sum — exclusive TT-move score, else MVV-LVA capture term with
positive SEE, promotion, check, killer-else-counter and history terms —
plus two additional bonuses the claim omits: the pawn-advance bonus and
the centralisation bonus (`order_score_extras`). -/
theorem order_score_amended (api : Api) (board : Board) (tt_move : Option Move)
    (killers : List Move) (counter : Option Move)
    (hist : List ((Bool × Nat × Nat) × Int)) (m : Move) :
    order_score api board tt_move killers counter hist m =
      if tt_move = some m then 10000000
      else order_score_claim_sum api board killers counter hist m +
        order_score_extras api board m := by
  have hcore : order_score api board tt_move killers counter hist m =
      if tt_move = some m then 10000000
      else order_score_core m (api.is_capture board m) (api.piece_at board m.toSq)
        (api.piece_at board m.fromSq) (see api board m) (api.gives_check board m)
        (api.piece_at board m.fromSq) killers counter
        ((assocFind (api.turn board, m.fromSq, m.toSq) hist).getD 0) := rfl
  by_cases htt : tt_move = some m
  · rw [hcore, if_pos htt, if_pos htt]
  · rw [hcore, if_neg htt, if_neg htt]
    simp only [order_score_core, stage_killer_zero, stage_piece_zero, stage_check_zero,
      stage_promo_zero, stage_capture_zero, order_score_claim_sum, order_score_extras]
    ring

theorem update_killers_history (ply : Nat) (m : Move) (st : St) :
    (update_killers ply m st).history = st.history := by
  simp only [update_killers]
  split_ifs <;> rfl

theorem assocSet_length_le {κ α : Type} [DecidableEq κ] (k : κ) (v : α) :
    ∀ l : List (κ × α), (assocSet k v l).length ≤ l.length + 1 := by
  intro l
  induction l with
  | nil => simp [assocSet]
  | cons kv rest ih =>
    rcases kv with ⟨k', v'⟩
    simp only [assocSet]
    split_ifs with h
    · simp
    · simp only [List.length_cons]
      omega

theorem assocFind_assocSet {κ α : Type} [DecidableEq κ] (k : κ) (v : α) :
    ∀ l : List (κ × α), assocFind k (assocSet k v l) = some v := by
  intro l
  induction l with
  | nil => simp [assocSet, assocFind]
  | cons kv rest ih =>
    rcases kv with ⟨k', v'⟩
    simp only [assocSet]
    split_ifs with h
    · simp [assocFind, h]
    · simp [assocFind, h, ih]

/-- C3 (counterexample).  A concrete move-loop run in which the cutoff
move is a capture and the history table changes anyway: the source calls
`_update_history` at every beta cutoff, not only for quiet moves. -/
theorem cutoff_capture_history_cex :
    apiCapture.is_capture [] m0 = true ∧
      ((pvsLoop recC3 apiCapture 0 2 5 0 false false [m0] 0 (-INF) none 0 [] st0).2.2).history ≠
        st0.history := by
  decide

/-- C3 (amended).  At a beta cutoff in the `_pvs` move loop the history
table is updated for the cutoff move unconditionally — capture or not —
with bonus `depth²` saturating at 10 000 (as long as the table is below
its 50 000-entry halving threshold), while killers and the counter-move
table are left untouched when the cutoff move is a capture. -/
theorem cutoff_updates_amended (api : Api) (board : Board) (m : Move) (depth : Int)
    (ply : Nat) (st : St) (hlen : st.history.length < 50000) :
    ((cutoffUpdates api board m depth ply st).history =
        (update_history api board m depth st).history) ∧
    (api.is_capture board m = true →
      (cutoffUpdates api board m depth ply st).killer_moves = st.killer_moves ∧
      (cutoffUpdates api board m depth ply st).counter_moves = st.counter_moves) ∧
    (assocFind (api.turn board, m.fromSq, m.toSq)
        (cutoffUpdates api board m depth ply st).history =
      some (min 10000
        ((assocFind (api.turn board, m.fromSq, m.toSq) st.history).getD 0 + depth * depth))) := by
  have hhist : (cutoffUpdates api board m depth ply st).history =
      (update_history api board m depth st).history := by
    simp only [cutoffUpdates]
    by_cases hc : api.is_capture board m = true
    · rw [hc]
      rfl
    · simp only [Bool.not_eq_true] at hc
      rw [hc]
      simp only [Bool.false_eq_true, if_false]
      rcases board.head? with _ | prev
      · exact update_killers_history ply m _
      · exact update_killers_history ply m _
  refine ⟨hhist, ?_, ?_⟩
  · intro hc
    simp only [cutoffUpdates, hc]
    constructor <;> rfl
  · rw [hhist]
    simp only [update_history]
    have hle : (assocSet (api.turn board, m.fromSq, m.toSq)
        (min 10000 ((assocFind (api.turn board, m.fromSq, m.toSq) st.history).getD 0 +
          depth * depth)) st.history).length ≤ st.history.length + 1 :=
      assocSet_length_le _ _ _
    rw [if_neg (by omega)]
    exact assocFind_assocSet _ _ _

theorem cutoff_updates_amended_witness :
    st0.history.length < 50000 ∧
      assocFind (apiD.turn [], m0.fromSq, m0.toSq) (cutoffUpdates apiD [] m0 2 0 st0).history =
        some (min 10000
          ((assocFind (apiD.turn [], m0.fromSq, m0.toSq) st0.history).getD 0 + 2 * 2)) :=
  ⟨by decide, (cutoff_updates_amended apiD [] m0 2 0 st0 (by decide)).2.2⟩

theorem time_up_tt (api : Api) (st : St) : ((time_up api st).2).tt = st.tt := by
  simp only [time_up]
  split_ifs <;> rfl

/-- C6.  In `_quiescence`, after a deadline poll that does not fire and a
transposition probe that yields no cutoff: the stand-pat score is the
static evaluation; if it is ≥ beta the function returns beta immediately;
if it is below `alpha − 975` it returns alpha immediately; otherwise the
capture loop (`qTail`) is entered with alpha raised to the stand-pat score
when that is larger, before any capture is searched. -/
theorem quiescence_stand_pat (api : Api) (fuel : Nat) (alpha beta : Int) (ply : Nat)
    (board : Board) (st : St)
    (htu : (time_up api st).1 = false)
    (hcut : qcut (assocFind (api.hash_key board) st.tt) alpha beta = none) :
    (api.evaluate board ≥ beta →
      (quiescence api (fuel + 1) alpha beta ply board st).1 = beta) ∧
    (api.evaluate board < beta → api.evaluate board < alpha - 975 →
      (quiescence api (fuel + 1) alpha beta ply board st).1 = alpha) ∧
    (api.evaluate board < beta → ¬(api.evaluate board < alpha - 975) →
      quiescence api (fuel + 1) alpha beta ply board st =
        qTail (fun a b p bd s => quiescence api fuel a b p bd s) api
          (if alpha < api.evaluate board then api.evaluate board else alpha) beta ply
          (api.hash_key board) board
          { (time_up api st).2 with nodes := ((time_up api st).2).nodes + 1 }) := by
  have htt : ((time_up api st).2).tt = st.tt := time_up_tt api st
  rcases ht : time_up api st with ⟨tu, st1⟩
  rw [ht] at htu htt
  dsimp only at htu htt
  subst htu
  have hunf : quiescence api (fuel + 1) alpha beta ply board st =
      (let st2 : St := { st1 with nodes := st1.nodes + 1 }
       match qcut (assocFind (api.hash_key board) st2.tt) alpha beta with
       | some r => (r, board, st2)
       | none =>
         let stand_pat := api.evaluate board
         if stand_pat ≥ beta then (beta, board, st2)
         else if stand_pat < alpha - 975 then (alpha, board, st2)
         else
           let alpha := if alpha < stand_pat then stand_pat else alpha
           qTail (fun a b p bd s => quiescence api fuel a b p bd s) api alpha beta ply
             (api.hash_key board) board st2) := by
    simp only [quiescence]
    rw [ht]
    rfl
  rw [hunf]
  dsimp only
  rw [htt, hcut]
  refine ⟨?_, ?_, ?_⟩
  · intro h
    rw [if_pos h]
  · intro h1 h2
    rw [if_neg (not_le.mpr h1), if_pos h2]
  · intro h1 h2
    rw [if_neg (not_le.mpr h1), if_neg h2]

theorem quiescence_stand_pat_witness :
    (time_up apiHighEval st0).1 = false ∧ apiHighEval.evaluate [] ≥ 5 ∧
      (quiescence apiHighEval 1 0 5 0 [] st0).1 = 5 :=
  ⟨rfl, by decide,
    (quiescence_stand_pat apiHighEval 0 0 5 0 [] st0 rfl rfl).1 (by decide)⟩

theorem pvsMain_futility (rec : RecPvs) (api : Api) (depth alpha beta : Int)
    (ply : Nat) (allowed : Option (List Move)) (key : Nat) (tt_move0 : Option Move)
    (board : Board) (st : St) (mg : Int)
    (hd3 : depth ≤ 3)
    (habs : abs alpha < MATE_SCORE - 100)
    (hmg : pyGet futilityMargins depth = some mg)
    (heval : api.evaluate board + mg ≤ alpha) :
    pvsMain rec api depth alpha beta ply false allowed false key tt_move0 board st =
      (some (alpha, none), board, st) := by
  simp only [pvsMain, Bool.false_eq_true, false_and, if_false]
  try dsimp only
  rw [if_pos (⟨hd3, trivial, trivial, habs⟩ : depth ≤ 3 ∧ True ∧ True ∧ abs alpha < MATE_SCORE - 100), hmg]
  dsimp only
  rw [if_pos heval]

/-- C7.  At a `_pvs` node that reaches the futility stage — deadline not
fired, not terminal, mate-distance window still open, no transposition
cutoff, `1 ≤ depth ≤ 3` (depth ≤ 0 would have gone to quiescence), not a
PV node, not in check, working alpha within `MATE − 100`, and the
null-move branch not returning — the search returns `(alpha, None)`
whenever the static evaluation plus `[0,200,350,500][depth]` is at most
alpha; the margin-table index is always in bounds there. -/
theorem futility_pruning (api : Api) (fuel : Nat) (depth alpha beta : Int) (ply : Nat)
    (allowed : Option (List Move)) (board : Board) (st : St)
    (htu : (time_up api st).1 = false)
    (hcm : api.is_checkmate board = false)
    (hsm : api.is_stalemate board = false)
    (him : api.is_insufficient_material board = false)
    (h3f : api.can_claim_threefold board = false)
    (h50 : api.can_claim_fifty board = false)
    (hmd : max alpha (-MATE_SCORE + (ply : Int)) < min beta (MATE_SCORE - (ply : Int) - 1))
    (hcut : ttCut (assocFind (api.hash_key board) st.tt) depth
        (max alpha (-MATE_SCORE + (ply : Int))) (min beta (MATE_SCORE - (ply : Int) - 1))
        false = none)
    (hd1 : 1 ≤ depth) (hd3 : depth ≤ 3)
    (hchk : api.is_check board = false)
    (habs : abs (max alpha (-MATE_SCORE + (ply : Int))) < MATE_SCORE - 100)
    (hnull : api.has_non_pawn_material board (api.turn board) = false ∨
      (∀ ns mv b' s', pvs api fuel (depth - 1 - (if depth > 6 then 3 else 2))
          (-(min beta (MATE_SCORE - (ply : Int) - 1)))
          (-(min beta (MATE_SCORE - (ply : Int) - 1)) + 1) (ply + 1) false none
          (nullMove :: board)
          { (time_up api st).2 with nodes := ((time_up api st).2).nodes + 1 } =
          (some (ns, mv), b', s') → -ns < min beta (MATE_SCORE - (ply : Int) - 1)))
    (heval : api.evaluate board + (pyGet futilityMargins depth).getD 0 ≤
        max alpha (-MATE_SCORE + (ply : Int))) :
    (pyGet futilityMargins depth).isSome = true ∧
    (pvs api (fuel + 1) depth alpha beta ply false allowed board st).1 =
      some (max alpha (-MATE_SCORE + (ply : Int)), none) := by
  obtain ⟨mg, hmg⟩ := pyGet_margin hd1 hd3
  rw [hmg] at heval
  simp only [Option.getD_some] at heval
  refine ⟨by rw [hmg]; rfl, ?_⟩
  rcases ht : time_up api st with ⟨tu, st1⟩
  rw [ht] at htu hnull
  dsimp only at htu hnull
  subst htu
  have htt : st1.tt = st.tt := by
    have := time_up_tt api st
    rw [ht] at this
    exact this
  simp only [pvs]
  rw [ht]
  dsimp only
  simp only [Bool.false_eq_true, if_false]
  rw [hcm, hsm, him, h3f, h50]
  simp only [Bool.or_self, Bool.false_eq_true, if_false]
  rw [if_neg (not_le.mpr hmd)]
  try dsimp only
  have hcut1 : ttCut (assocFind (api.hash_key board) st1.tt) depth
      (max alpha (-MATE_SCORE + (ply : Int))) (min beta (MATE_SCORE - (ply : Int) - 1))
      false = none := by
    rw [htt]
    exact hcut
  rw [hcut1]
  try dsimp only
  rw [if_neg (by omega : ¬(depth ≤ 0))]
  rw [hchk]
  by_cases hcond : api.has_non_pawn_material board (api.turn board) = true
  · by_cases hd : depth ≥ 3
    · rw [if_pos (⟨trivial, rfl, hd, hcond⟩ : True ∧ false = false ∧ depth ≥ 3 ∧
        api.has_non_pawn_material board (api.turn board) = true)]
      obtain ⟨⟨ns, mv⟩, st', hen⟩ := pvs_eq api fuel
        (depth - 1 - (if depth > 6 then 3 else 2))
        (-(min beta (MATE_SCORE - (ply : Int) - 1)))
        (-(min beta (MATE_SCORE - (ply : Int) - 1)) + 1) (ply + 1) false none
        (nullMove :: board) { st1 with nodes := st1.nodes + 1 }
      rw [hen]
      dsimp only [List.tail_cons]
      have hns : -ns < min beta (MATE_SCORE - (ply : Int) - 1) := by
        rcases hnull with h | h
        · rw [hcond] at h
          simp at h
        · exact h ns mv _ _ hen
      rw [if_neg (not_le.mpr hns)]
      rw [pvsMain_futility _ api depth _ _ ply allowed (api.hash_key board) _ board st' mg
        hd3 habs hmg heval]
    · rw [if_neg (fun hcontra => hd hcontra.2.2.1)]
      rw [pvsMain_futility _ api depth _ _ ply allowed (api.hash_key board) _ board _ mg
        hd3 habs hmg heval]
  · rw [if_neg (fun hcontra => hcond hcontra.2.2.2)]
    rw [pvsMain_futility _ api depth _ _ ply allowed (api.hash_key board) _ board _ mg
      hd3 habs hmg heval]

theorem futility_pruning_witness :
    (pyGet futilityMargins 2).isSome = true ∧
      (pvs apiFut 1 2 0 10 0 false none [] st0).1 =
        some (max 0 (-MATE_SCORE + ((0 : Nat) : Int)), none) :=
  futility_pruning apiFut 0 2 0 10 0 none [] st0 (by decide) rfl rfl rfl rfl rfl
    (by decide) rfl (by decide) (by decide) rfl (by decide) (Or.inl rfl) (by decide)

theorem tm_alloc_zero : tm_alloc apiD [] 0 0 20 = none := by
  simp only [tm_alloc]
  split_ifs with h
  · rfl
  · exfalso
    apply h
    norm_num

/-- C9 (counterexample).  With a clock limit of zero time and zero
increment, the time manager's `time_ratio` division divides by zero, so
`search` raises a `ZeroDivisionError` to the caller (a `none` result in
this model): "search never raises" fails as stated. -/
theorem search_zero_clock_raises :
    (search apiD 20 1 (some limitZero) none [] st0).1 = none := by
  have hc : calculate_time_allocation apiD [] (some limitZero) 20 = none := by
    simp only [calculate_time_allocation, limitZero, apiD, Option.getD_some, if_true]
    exact tm_alloc_zero
  simp only [search]
  rw [show opening_probe apiD [] = none from rfl]
  dsimp only
  rw [hc]

/-- C9 (amended).  Provided the time-allocation call does not raise (the
limit is well-formed: a usable clock, a movetime, or neither), `search`
returns a result; and with no legal root moves after the
`allowed_root_moves` filter (and no opening-probe short-circuit) it
returns `move = None` with reported score 0. -/
theorem search_no_raise_and_empty_root (api : Api) (max_depth fuel : Nat)
    (tl : Option Limit) (rm : Option (List Move)) (board : Board) (st : St)
    (halloc : (calculate_time_allocation api board tl max_depth).isSome = true) :
    ((search api max_depth fuel tl rm board st).1.isSome = true) ∧
    (opening_probe api board = none →
      (match rm with
       | none => api.legal_moves board
       | some ar => (api.legal_moves board).filter (fun m => ar.contains m)) = [] →
      ∃ d, (search api max_depth fuel tl rm board st).1 = some ⟨none, d, [], some 0⟩) := by
  constructor
  · simp only [search]
    rcases hp : opening_probe api board with _ | mprobe
    · dsimp only
      rcases hc : calculate_time_allocation api board tl max_depth with _ | ⟨alloc, amd⟩
      · exfalso
        rw [hc] at halloc
        simp at halloc
      · dsimp only
        obtain ⟨⟨score, move⟩, st2, he⟩ := pvs_eq api fuel 1 (-INF) INF 0 true rm board _
        rw [he]
        dsimp only
        rcases move with _ | mv
        · dsimp only
          obtain ⟨⟨bm3, bs3, pv3, ld3⟩, st3, he3⟩ := idLoop_eq api rm fuel
            (List.range' 2 (amd - 1)) none 0 [] 1 board st2
          rw [he3]
          rfl
        · dsimp only
          rcases hx : extract_pv api st2 board with ⟨pvl, b2⟩
          have hb2 : b2 = board := by
            have := extract_pv_restores api st2 board
            rw [hx] at this
            exact this
          rw [hb2]
          dsimp only
          obtain ⟨⟨bm3, bs3, pv3, ld3⟩, st3, he3⟩ := idLoop_eq api rm fuel
            (List.range' 2 (amd - 1)) (some mv) score pvl 1 board st2
          rw [he3]
          rfl
    · rfl
  · intro hp hmoves
    simp only [search]
    rw [hp]
    dsimp only
    rcases hc : calculate_time_allocation api board tl max_depth with _ | ⟨alloc, amd⟩
    · exfalso
      rw [hc] at halloc
      simp at halloc
    · dsimp only
      obtain ⟨s, st2, he⟩ := pvs_root_none api fuel 1 (-INF) INF rm board _ hmoves
      rw [he]
      dsimp only
      obtain ⟨ld', st3, he3⟩ := idLoop_keep_none api rm fuel board hmoves
        (List.range' 2 (amd - 1)) [] 1 st2
      rw [he3]
      dsimp only
      rw [hmoves]
      exact ⟨ld', rfl⟩

theorem search_no_raise_witness :
    ((search apiD 20 1 none none [] st0).1.isSome = true) ∧
      (∃ d, (search apiD 20 1 none none [] st0).1 = some ⟨none, d, [], some 0⟩) :=
  ⟨(search_no_raise_and_empty_root apiD 20 1 none none [] st0 (by decide)).1,
    (search_no_raise_and_empty_root apiD 20 1 none none [] st0 (by decide)).2 rfl rfl⟩

/-- C2 (counterexample).  With a recursion oracle whose score depends
only on the `is_pv` flag it receives, a non-reduced later move at a
non-PV node yields a different score than the claimed behaviour: the
source runs no zero-window scout when no reduction applies and passes
the node's own `is_pv` (not `true`) to the full-window re-search. -/
theorem later_move_cex :
    (laterMoveSearch recC2 5 0 10 1 false false 0 [] st0).1 ≠
      (later_move_per_claim recC2 5 0 10 1 0 [] st0).1 := by
  decide

/-- C2 (amended).  In the `_pvs` move loop a later move behaves as
`later_move_amended`: with a reduction (`R > 0`) it is scouted at
`depth − 1 − R` with the zero window, re-scouted at full `depth − 1` when
the scout beats alpha, and re-searched with the full window — passing the
node's own `is_pv` flag — when the score is strictly inside the window;
with `R = 0` there is no scout: the score starts at `alpha + 1` and the
single full-window search runs exactly when `alpha + 1 < beta`. -/
theorem later_move_amended_eq (rec : RecPvs) (depth alpha beta : Int) (ply : Nat)
    (is_pv : Bool) (R : Int) (board : Board) (st : St) :
    laterMoveSearch rec depth alpha beta ply is_pv (decide (0 < R)) R board st =
      later_move_amended rec depth alpha beta ply is_pv R board st := by
  by_cases hR : 0 < R
  · have hdec : decide (0 < R) = true := by simp [hR]
    simp only [laterMoveSearch, later_move_amended, hdec, if_pos hR, if_true,
      eq_self_iff_true, and_true]
  · have hdec : decide (0 < R) = false := by simp [hR]
    simp only [laterMoveSearch, later_move_amended, hdec, if_neg hR,
      Bool.false_eq_true, if_false, and_false, gt_iff_lt, Int.lt_add_one_iff,
      le_refl, true_and]

end DB
